import Mathlib

/-!
Verification of the MCP client / tool-registry core of `laughing-barnacle`.

The Go sources are shallowly embedded: pure helpers become Lean functions,
stateful code is explicit state passing, network and subprocess I/O is
abstracted as oracles supplied to the interpreter, and `encoding/json`
parsing is modelled by a small executable JSON parser over the value type
`JsonVal`.  Machine integers do not overflow in any modelled path, so Go
`int`/`int64` are embedded as `Int` and lengths as `Nat`.
-/

namespace LB

/-! ### String helpers

Kernel-reducible models of the Go string functions used by the sources.
Lean's own `String.trim`/`String.startsWith` are `Substring`-based and do
not reduce in the kernel, so claims could not be checked on concrete
inputs through them; these operate on the character list directly.
`goTrim` models `strings.TrimSpace` (ASCII whitespace, which is all the
modelled inputs contain). -/

def goTrim (s : String) : String :=
  ⟨((s.data.dropWhile Char.isWhitespace).reverse.dropWhile Char.isWhitespace).reverse⟩

/-- Go `strings.HasPrefix`. -/
def goHasPre (s p : String) : Bool := p.data.isPrefixOf s.data

/-- Drop the first `n` characters (used to model `strings.TrimPrefix` at
call sites where the prefix is known to be present). -/
def goDrop (s : String) (n : Nat) : String := ⟨s.data.drop n⟩

/-- Go `strings.Trim(s, cutset)` for a single-character cutset. -/
def goTrimChar (s : String) (c : Char) : String :=
  ⟨((s.data.dropWhile (· = c)).reverse.dropWhile (· = c)).reverse⟩

/-- Go `strings.Join` / `strings.Repeat`-free joining with a separator. -/
def goJoin (parts : List String) (sep : String) : String :=
  match parts with
  | [] => ""
  | p :: rest => rest.foldl (fun acc q => acc ++ sep ++ q) p

/-- Go `strings.EqualFold`, restricted to ASCII case folding (the only
values compared in the sources are ASCII literals like `"text"`). -/
def goEqualFold (a b : String) : Bool :=
  a.data.map Char.toLower == b.data.map Char.toLower

/-- Kernel-reducible lexicographic order on character lists; provably the
same relation as `String.lt` on the underlying data
(`listLtB_iff_lt`). -/
def listLtB : List Char → List Char → Bool
  | [], [] => false
  | [], _ :: _ => true
  | _ :: _, [] => false
  | a :: as, b :: bs =>
    if a < b then true
    else if b < a then false
    else listLtB as bs

/-- Go string `<` (lexicographic; UTF-8 byte order coincides with
codepoint order). -/
def goStrLt (a b : String) : Bool := listLtB a.data b.data

def goStrLe (a b : String) : Bool := !(goStrLt b a)

/-! ### JSON values (model of Go `any` trees produced by `encoding/json`) -/

/-- A JSON value.  Go's `encoding/json` decodes into `nil`, `bool`,
`float64`, `string`, `[]any` and `map[string]any`; numbers in the paths we
model are integral, so they are embedded as `Int`. -/
inductive JsonVal where
  | jNull : JsonVal
  | jBool : Bool → JsonVal
  | jNum : Int → JsonVal
  | jStr : String → JsonVal
  | jArr : List JsonVal → JsonVal
  | jObj : List (String × JsonVal) → JsonVal

/-- First-match association lookup (Go map reads are modelled on the parsed
field list; `encoding/json` keeps the last duplicate key, which our parser
reproduces by construction, so first-match on its output is accurate). -/
def lookupField (fields : List (String × JsonVal)) (key : String) : Option JsonVal :=
  match fields with
  | [] => none
  | (k, v) :: rest => if k = key then some v else lookupField rest key

/-! ### A small JSON parser, modelling `encoding/json` syntax handling.

Fuel-based recursive descent; `fuel` strictly decreases on every recursive
call and `jsonParse` supplies enough fuel for any input, so the fallback
`none` on fuel exhaustion is unreachable on the wrapper. -/

def isWsChar (c : Char) : Bool :=
  c = ' ' || c = '\t' || c = '\n' || c = '\r'

def skipWs (s : List Char) : List Char := s.dropWhile isWsChar

def isDigitChar (c : Char) : Bool := '0' ≤ c && c ≤ '9'

def digitVal (c : Char) : Nat := c.toNat - '0'.toNat

/-- Parse a run of decimal digits, accumulating into `acc`. -/
def parseDigits : List Char → Nat → Option (Nat × List Char)
  | [], _ => none
  | c :: rest, acc =>
    if isDigitChar c then
      match parseDigits rest (acc * 10 + digitVal c) with
      | some r => some r
      | none => some (acc * 10 + digitVal c, rest)
    else none

/-- Parse a JSON number.  The integer part is retained; a fractional part or
exponent is consumed syntactically (all ids and schema numbers exercised by
the claims are integral). -/
def parseNumber (s : List Char) : Option (Int × List Char) :=
  match s with
  | '-' :: rest =>
    match parseDigits rest 0 with
    | some (n, rest') => some (-(n : Int), skipNumTail rest')
    | none => none
  | _ =>
    match parseDigits s 0 with
    | some (n, rest') => some ((n : Int), skipNumTail rest')
    | none => none
where
  /-- Consume an optional fraction and exponent. -/
  skipNumTail (s : List Char) : List Char :=
    let s1 := match s with
      | '.' :: r =>
        match parseDigits r 0 with
        | some (_, r') => r'
        | none => '.' :: r
      | _ => s
    match s1 with
    | 'e' :: r => skipExp r
    | 'E' :: r => skipExp r
    | _ => s1
  skipExp (r : List Char) : List Char :=
    let r1 := match r with
      | '+' :: r' => r'
      | '-' :: r' => r'
      | _ => r
    match parseDigits r1 0 with
    | some (_, r') => r'
    | none => r1

def hexVal (c : Char) : Nat :=
  if '0' ≤ c ∧ c ≤ '9' then c.toNat - '0'.toNat
  else if 'a' ≤ c ∧ c ≤ 'f' then c.toNat - 'a'.toNat + 10
  else if 'A' ≤ c ∧ c ≤ 'F' then c.toNat - 'A'.toNat + 10
  else 0

def isHexChar (c : Char) : Bool :=
  ('0' ≤ c && c ≤ '9') || ('a' ≤ c && c ≤ 'f') || ('A' ≤ c && c ≤ 'F')

/-- Parse the body of a JSON string (after the opening quote). -/
def parseStringBody : Nat → List Char → List Char → Option (String × List Char)
  | 0, _, _ => none
  | _ + 1, [], _ => none
  | fuel + 1, c :: rest, acc =>
    if c = '"' then some (String.mk acc.reverse, rest)
    else if c = '\\' then
      match rest with
      | [] => none
      | e :: rest' =>
        if e = 'u' then
          match rest' with
          | h1 :: h2 :: h3 :: h4 :: rest'' =>
            if isHexChar h1 && isHexChar h2 && isHexChar h3 && isHexChar h4 then
              let code := ((hexVal h1 * 16 + hexVal h2) * 16 + hexVal h3) * 16 + hexVal h4
              parseStringBody fuel rest'' (Char.ofNat code :: acc)
            else none
          | _ => none
        else
          let decoded : Option Char :=
            if e = '"' then some '"'
            else if e = '\\' then some '\\'
            else if e = '/' then some '/'
            else if e = 'n' then some '\n'
            else if e = 't' then some '\t'
            else if e = 'r' then some '\r'
            else if e = 'b' then some (Char.ofNat 8)
            else if e = 'f' then some (Char.ofNat 12)
            else none
          match decoded with
          | some d => parseStringBody fuel rest' (d :: acc)
          | none => none
    else parseStringBody fuel rest (c :: acc)

/-- Check that `pre` is a literal prefix and return the remainder. -/
def stripLit : List Char → List Char → Option (List Char)
  | [], s => some s
  | p :: ps, c :: cs => if p = c then stripLit ps cs else none
  | _ :: _, [] => none

/-- Parser mode: a top-level value, the field list of an object, or the
item list of an array (`first` marks that no element has been read yet, so
the closing bracket may follow immediately). -/
inductive PMode where
  | val : PMode
  | obj : Bool → List (String × JsonVal) → PMode
  | arr : Bool → List JsonVal → PMode

/-- Recursive-descent core, structurally recursive on `fuel` so that it
reduces in the kernel.  `jsonParse` supplies enough fuel for any input. -/
def parseF : Nat → PMode → List Char → Option (JsonVal × List Char)
  | 0, _, _ => none
  | fuel + 1, .val, s =>
    match skipWs s with
    | [] => none
    | c :: rest =>
      if c = '"' then
        match parseStringBody (rest.length + 1) rest [] with
        | some (str, rest') => some (.jStr str, rest')
        | none => none
      else if c = '{' then parseF fuel (.obj true []) rest
      else if c = '[' then parseF fuel (.arr true []) rest
      else if c = 't' then
        match stripLit ['r', 'u', 'e'] rest with
        | some rest' => some (.jBool true, rest')
        | none => none
      else if c = 'f' then
        match stripLit ['a', 'l', 's', 'e'] rest with
        | some rest' => some (.jBool false, rest')
        | none => none
      else if c = 'n' then
        match stripLit ['u', 'l', 'l'] rest with
        | some rest' => some (.jNull, rest')
        | none => none
      else
        match parseNumber (c :: rest) with
        | some (n, rest') => some (.jNum n, rest')
        | none => none
  | fuel + 1, .obj first acc, s =>
    match skipWs s with
    | [] => none
    | c :: rest =>
      if first ∧ c = '}' then some (.jObj acc.reverse, rest)
      else if c = '"' then
        match parseStringBody (rest.length + 1) rest [] with
        | some (key, afterKey) =>
          match skipWs afterKey with
          | ':' :: afterColon =>
            match parseF fuel .val afterColon with
            | some (v, afterVal) =>
              -- later duplicate keys win, as in `encoding/json`
              let acc' := (key, v) :: acc.filter (fun kv => kv.1 ≠ key)
              match skipWs afterVal with
              | '}' :: rest' => some (.jObj acc'.reverse, rest')
              | ',' :: rest' => parseF fuel (.obj false acc') rest'
              | _ => none
            | none => none
          | _ => none
        | none => none
      else none
  | fuel + 1, .arr first acc, s =>
    match skipWs s with
    | [] => none
    | c :: rest =>
      if first ∧ c = ']' then some (.jArr acc.reverse, rest)
      else
        match parseF fuel .val (c :: rest) with
        | some (v, afterVal) =>
          match skipWs afterVal with
          | ']' :: rest' => some (.jArr (v :: acc).reverse, rest')
          | ',' :: rest' => parseF fuel (.arr false (v :: acc)) rest'
          | _ => none
        | none => none

/-- Parse a complete JSON document: one value, with nothing but whitespace
after it (as `json.Unmarshal` requires). -/
def jsonParse (s : String) : Option JsonVal :=
  match parseF (2 * s.length + 4) .val s.data with
  | some (v, rest) => if skipWs rest = [] then some v else none
  | none => none

/-! ### Go `%v` rendering of RPC id values and `sameRPCID`
(`client.go`, `sameRPCID`). -/

/-- The dynamic (`any`) values that can appear as an RPC id after
`encoding/json` decoding, together with the client's own `int64` ids.
Composite values (arrays/objects) never appear as ids in any modelled
exchange and are rejected at decode time by our envelope extractor. -/
inductive GoVal where
  | vint : Int → GoVal
  | vstr : String → GoVal
  | vbool : Bool → GoVal
  | vnil : GoVal
deriving DecidableEq

/-- Go `fmt.Sprintf("%v", x)`: integral numbers (both `int64` and integral
`float64`) print as decimal, strings verbatim, `nil` as `<nil>`. -/
def renderGoVal : GoVal → String
  | .vint n => toString n
  | .vstr s => s
  | .vbool b => if b then "true" else "false"
  | .vnil => "<nil>"

/-- `client.go` `sameRPCID`: compare the trimmed `%v` renderings. -/
def sameRPCID (a b : GoVal) : Bool :=
  goTrim (renderGoVal a) == goTrim (renderGoVal b)

/-! ### SSE framing (`client.go`, `sseEvent` / `readSSEEvent`)

The `bufio.Reader` is modelled as the remaining character list.
`readLine` models `reader.ReadString('\n')`: the returned chunk includes
the newline; reaching end of input without a newline is the `io.EOF`
case, with the partial chunk still returned. -/

structure SSEEvent where
  name : String
  data : String
deriving DecidableEq

def readLine : List Char → List Char × List Char × Bool
  | [] => ([], [], true)
  | c :: cs =>
    if c = '\n' then ([c], cs, false)
    else
      match readLine cs with
      | (l, r, e) => (c :: l, r, e)

/-- `strings.TrimRight(line, "\r\n")`. -/
def trimRightCRLF (l : List Char) : List Char :=
  (l.reverse.dropWhile (fun c => c = '\r' ∨ c = '\n')).reverse

/-- The body of `readSSEEvent`'s `for` loop, structurally recursive on
fuel; each iteration that does not return consumes at least the line's
newline, so `input.length + 1` fuel always suffices (see
`readSSEEventLoop_mono`). -/
def readSSEEventLoop : Nat → List Char → SSEEvent → Bool → Option (SSEEvent × List Char)
  | 0, _, _, _ => none
  | fuel + 1, input, ev, hasData =>
    match readLine input with
    | (raw, rest, eof) =>
      let line : String := ⟨trimRightCRLF raw⟩
      if line = "" ∧ hasData then some (ev, rest)
      else
        let st : SSEEvent × Bool :=
          if line = "" then (ev, hasData)
          else if goHasPre line ":" then (ev, hasData)    -- comment/heartbeat
          else if goHasPre line "event:" then
            ({ name := goTrim (goDrop line 6), data := ev.data }, true)
          else if goHasPre line "data:" then
            let part := goTrim (goDrop line 5)
            ({ name := ev.name,
               data := if ev.data = "" then part else ev.data ++ "\n" ++ part }, true)
          else (ev, hasData)
        if eof then (if st.2 then some (st.1, rest) else none)
        else readSSEEventLoop fuel rest st.1 st.2

/-- `client.go` `readSSEEvent`: read one event; `none` is the `io.EOF`
return (stream end with no in-progress event). -/
def readSSEEvent (input : List Char) : Option (SSEEvent × List Char) :=
  readSSEEventLoop (input.length + 1) input ⟨"", ""⟩ false

/-! ### JSON-RPC response envelope (`client.go`, `rpcResponse`) -/

structure RpcError where
  code : Int
  message : String
deriving DecidableEq

/-- `rpcResponse`; `Result` is `json.RawMessage`, modelled as the parsed
value it denotes (`none` when the field is absent or null). -/
structure RpcResponse where
  jsonrpc : String
  id : GoVal
  result : Option JsonVal
  rpcError : Option RpcError

/-- `encoding/json` decoding of a JSON value into an `any` id slot.
Composite ids (arrays/objects) are outside the modelled id space and are
mapped to `none`. -/
def goValOfJson : JsonVal → Option GoVal
  | .jNull => some .vnil
  | .jNum n => some (.vint n)
  | .jStr s => some (.vstr s)
  | .jBool b => some (.vbool b)
  | _ => none

/-- `json.Unmarshal` of an already-parsed JSON value into `rpcResponse`:
a missing field keeps the zero value, a type mismatch is an unmarshal
error (`none`). -/
def unmarshalRpcResponse (v : JsonVal) : Option RpcResponse :=
  match v with
  | .jObj fields =>
    let jsonrpc? : Option String :=
      match lookupField fields "jsonrpc" with
      | none => some ""
      | some (.jStr s) => some s
      | some _ => none
    let id? : Option GoVal :=
      match lookupField fields "id" with
      | none => some .vnil
      | some .jNull => some .vnil
      | some idv => goValOfJson idv
    let err? : Option (Option RpcError) :=
      match lookupField fields "error" with
      | none => some none
      | some .jNull => some none
      | some (.jObj ef) =>
        let code? : Option Int :=
          match lookupField ef "code" with
          | none => some 0
          | some (.jNum n) => some n
          | some _ => none
        let msg? : Option String :=
          match lookupField ef "message" with
          | none => some ""
          | some (.jStr s) => some s
          | some _ => none
        match code?, msg? with
        | some c, some m => some (some ⟨c, m⟩)
        | _, _ => none
      | some _ => none
    match jsonrpc?, id?, err? with
    | some j, some i, some e =>
      some { jsonrpc := j, id := i,
             result := match lookupField fields "result" with
                       | some .jNull => none
                       | r => r,
             rpcError := e }
    | _, _, _ => none
  | _ => none

/-- Parse a string and unmarshal it as a JSON-RPC response (the
`json.Unmarshal([]byte(data), &rpcResp)` step; `none` covers both syntax
and type errors, which the SSE wait loop treats alike). -/
def decodeRpcFromString (s : String) : Option RpcResponse :=
  (jsonParse s).bind unmarshalRpcResponse

/-! ### Waiting for a matching response (`client.go`,
`waitRPCResponseFromSSE` / `waitRPCResponseFromSTDIO`) -/

/-- `waitRPCResponseFromSSE` over the remaining stream characters.
Fuel-structural; `input.length + 1` fuel always suffices. -/
def waitSSELoop : Nat → List Char → GoVal → Except String RpcResponse
  | 0, _, _ => .error "decode rpc response: no rpc message in sse stream"
  | fuel + 1, input, expectID =>
    match readSSEEvent input with
    | none => .error "decode rpc response: no rpc message in sse stream"
    | some (ev, rest) =>
      let d := goTrim ev.data
      if d = "" then waitSSELoop fuel rest expectID
      else
        match decodeRpcFromString d with
        | none => waitSSELoop fuel rest expectID
        | some resp =>
          if expectID ≠ .vnil ∧ ¬ sameRPCID expectID resp.id then
            waitSSELoop fuel rest expectID
          else .ok resp

def waitRPCResponseFromSSE (input : List Char) (expectID : GoVal) :
    Except String RpcResponse :=
  waitSSELoop (input.length + 1) input expectID

/-- The method-field test of `waitRPCResponseFromSTDIO`: the envelope is
skipped when a `method` key is present, unmarshals as a string, and is
non-blank after trimming (a server-initiated request/notification). -/
def stdioSkipMethod (fields : List (String × JsonVal)) : Bool :=
  match lookupField fields "method" with
  | some (.jStr m) => goTrim m ≠ ""
  | _ => false

/-- `waitRPCResponseFromSTDIO` over the subprocess stdout characters; the
`json.Decoder` is modelled by parsing successive values off the stream. -/
def waitSTDIOLoop : Nat → List Char → GoVal → Except String RpcResponse
  | 0, _, _ => .error "decode rpc response: eof"
  | fuel + 1, input, expectID =>
    match skipWs input with
    | [] => .error "decode rpc response: eof"
    | s =>
      match parseF (2 * s.length + 4) .val s with
      | none => .error "decode rpc response: invalid json"
      | some (v, rest) =>
        match v with
        | .jObj fields =>
          if stdioSkipMethod fields then waitSTDIOLoop fuel rest expectID
          else
            match lookupField fields "id" with
            | none => waitSTDIOLoop fuel rest expectID
            | some idv =>
              match goValOfJson idv with
              | none => .error "decode rpc response: unsupported id"
              | some id =>
                if expectID ≠ .vnil ∧ ¬ sameRPCID expectID id then
                  waitSTDIOLoop fuel rest expectID
                else
                  match unmarshalRpcResponse (.jObj fields) with
                  | some resp => .ok resp
                  | none => .error "decode rpc response: remarshal failed"
        | _ => .error "decode rpc response: cannot unmarshal into map"

def waitRPCResponseFromSTDIO (input : List Char) (expectID : GoVal) :
    Except String RpcResponse :=
  waitSTDIOLoop (input.length + 1) input expectID

/-! ### Configuration store (`part_006`, package `mcp` store)

`UpdatedAt` timestamps are carried by the source structs but never read by
any modelled operation, so they are omitted.  `Command`/`Args` and the
`stdio` transport constant belong to the newest store revision, whose file
is not under `src/` (only `client.go` uses them). -/

structure ServiceToolState where
  name : String
  enabled : Bool
deriving DecidableEq

structure Service where
  id : String
  name : String
  endpoint : String
  transport : String
  authToken : String
  command : String
  args : List String
  enabled : Bool
  toolStates : List ServiceToolState
deriving DecidableEq

def ServiceTransportStreamableHTTP : String := "streamable_http"

def ServiceTransportSSE : String := "sse"

/-- Modelled from the spec: the subprocess transport kind of the closed
transport set (§3, §4.1); its defining store revision is not under `src/`,
only `client.go` references the constant. -/
def ServiceTransportStdio : String := "stdio"

def goLower (s : String) : String := ⟨s.data.map Char.toLower⟩

/-- `normalizeServiceTransport` (part_006).  The newest revision adds an
explicit `stdio` case returning `ServiceTransportStdio`, which coincides
with the default branch here, so dispatch behaviour is identical. -/
def normalizeServiceTransport (raw : String) : String :=
  let normalized := goLower (goTrim raw)
  if normalized = "" ∨ normalized = "streamablehttp" ∨ normalized = "streamable_http" ∨
      normalized = "streamable-http" then ServiceTransportStreamableHTTP
  else if normalized = "sse" then ServiceTransportSSE
  else normalized

/-- The store's service list (`s.cfg.MCP.Services`); cloning is identity in
the pure model. -/
def ListServices (cfg : List Service) : List Service := cfg

def ListEnabledServices (cfg : List Service) : List Service :=
  (ListServices cfg).filter (·.enabled)

def GetService (cfg : List Service) (id : String) : Option Service :=
  cfg.find? (fun svc => svc.id = goTrim id)

/-- `serviceToolEnabled` (part_006): first matching override record wins,
no record defaults to enabled. -/
def serviceToolEnabled (service : Service) (toolName : String) : Bool :=
  let toolName := goTrim toolName
  if toolName = "" then false
  else
    match service.toolStates.find? (fun st => goTrim st.name = toolName) with
    | some st => st.enabled
    | none => true

/-- `Store.IsServiceToolEnabled` (part_006). -/
def IsServiceToolEnabled (cfg : List Service) (serviceID toolName : String) : Bool :=
  let serviceID := goTrim serviceID
  let toolName := goTrim toolName
  if serviceID = "" ∨ toolName = "" then false
  else
    match cfg.find? (fun svc => svc.id = serviceID) with
    | some svc => serviceToolEnabled svc toolName
    | none => false

/-- `normalizeServiceToolStates` (part_006): default is enabled, only
explicit disabled states are kept, keyed by trimmed name with later
entries winning, output sorted by name. -/
def normalizeServiceToolStates (states : List ServiceToolState) : List ServiceToolState :=
  if states = [] then []
  else
    let byName : List ServiceToolState := states.foldl
      (fun m st =>
        let name := goTrim st.name
        if name = "" then m
        else if st.enabled then m.filter (fun q => q.name ≠ name)
        else (m.filter (fun q => q.name ≠ name)) ++ [⟨name, false⟩])
      []
    List.insertionSort (fun a b => goStrLe a.name b.name = true) byName

/-! ### LLM tool definitions (`part_004`, package types) -/

structure ToolFunctionDefinition where
  name : String
  description : String
  parameters : JsonVal

structure ToolDefinition where
  type : String
  function : ToolFunctionDefinition

structure ToolFunctionCall where
  name : String
  arguments : String

structure ToolCall where
  id : String
  type : String
  function : ToolFunctionCall

/-! ### Protocol client data (`client.go`) -/

structure Tool where
  name : String
  description : String
  inputSchema : Option JsonVal

structure ToolContentPart where
  type : String
  text : String
deriving DecidableEq

structure ToolCallResult where
  content : List ToolContentPart
  structuredContent : Option JsonVal
  isError : Bool

/-! ### Tool registry helpers (`provider.go`) -/

structure ToolBinding where
  serviceID : String
  toolName : String
deriving DecidableEq

def sanChar (r : Char) : Char :=
  if ('a' ≤ r ∧ r ≤ 'z') ∨ ('A' ≤ r ∧ r ≤ 'Z') ∨ ('0' ≤ r ∧ r ≤ '9') ∨
      r = '-' ∨ r = '_' then r
  else '_'

/-- `sanitizeName` (provider.go). -/
def sanitizeName (v : String) : String :=
  let v := goTrim v
  if v = "" then "tool"
  else goTrimChar ⟨v.data.map sanChar⟩ '_'

/-- `toToolDefinition` (provider.go). -/
def toToolDefinition (service : Service) (tool : Tool) : ToolDefinition × ToolBinding :=
  let pre := sanitizeName service.id
  let toolName := sanitizeName tool.name
  let fullName := if pre = "" then toolName else pre ++ "__" ++ toolName
  let description0 := goTrim tool.description
  let description1 := if description0 = "" then "MCP tool" else description0
  let description := "[MCP " ++ service.name ++ "] " ++ description1
  let params : JsonVal :=
    match tool.inputSchema with
    | some p => p
    | none => .jObj [("type", .jStr "object"), ("properties", .jObj [])]
  ({ type := "function",
     function := { name := fullName, description := description, parameters := params } },
   { serviceID := service.id, toolName := tool.name })

/-- `bindingExists` (provider.go); the Go map is modelled as the
association list of insertions, whose keys stay unique. -/
def bindingExists (bindings : List (String × ToolBinding)) (name : String) : Bool :=
  bindings.any (fun kv => kv.1 = name)

/-- The collision candidate `fmt.Sprintf("%s_%d", base, i)`. -/
def suffixName (base : String) (i : Nat) : String := base ++ "_" ++ toString i

/-- The suffix-probing `for` loop of `RefreshTools`.  The Go loop has no
fuel; it terminates because the candidates are pairwise distinct and the
binding table is finite.  `bindings.length + 1` iterations provably
suffice (`searchFresh_finds`), making the fallback unreachable from
`resolveName`. -/
def searchFresh (bindings : List (String × ToolBinding)) (base : String) :
    Nat → Nat → String
  | 0, i => suffixName base i
  | fuel + 1, i =>
    if bindingExists bindings (suffixName base i) then
      searchFresh bindings base fuel (i + 1)
    else suffixName base i

/-- The name-assignment step of `RefreshTools`: keep the constructed name
if unbound, otherwise probe `base_2`, `base_3`, … in order. -/
def resolveName (bindings : List (String × ToolBinding)) (base : String) : String :=
  if bindingExists bindings base then searchFresh bindings base (bindings.length + 1) 2
  else base

/-! ### Injectivity of decimal rendering

Needed to show the suffix-probing loop escapes the finite binding table:
the candidates `base_2`, `base_3`, … are pairwise distinct because
`Nat.repr` is injective, which we derive from a value-correctness
specification of `Nat.toDigitsCore`. -/

def digitsVal (ds : List Char) : Nat := ds.foldl (fun a c => a * 10 + digitVal c) 0

theorem digitsVal_append (ds : List Char) (c : Char) :
    digitsVal (ds ++ [c]) = digitsVal ds * 10 + digitVal c := by
  simp [digitsVal, List.foldl_append]

theorem digitVal_digitChar {n : Nat} (h : n < 10) : digitVal (Nat.digitChar n) = n := by
  interval_cases n <;> decide

theorem toDigitsCore_spec :
    ∀ (fuel n : Nat) (acc : List Char), n < fuel →
    ∃ ds : List Char, Nat.toDigitsCore 10 fuel n acc = ds ++ acc ∧ ds ≠ [] ∧ digitsVal ds = n := by
  intro fuel
  induction fuel with
  | zero => intro n acc h; omega
  | succ f ih =>
    intro n acc h
    by_cases h0 : n / 10 = 0
    · refine ⟨[Nat.digitChar (n % 10)], ?_, by simp, ?_⟩
      · simp [Nat.toDigitsCore, h0]
      · have hn : n < 10 := (Nat.div_eq_zero_iff (by norm_num)).1 h0
        have hmod : n % 10 = n := Nat.mod_eq_of_lt hn
        simp [digitsVal, hmod, digitVal_digitChar hn]
    · have hnpos : 0 < n := by
        rcases Nat.eq_zero_or_pos n with h' | h'
        · exact absurd (by simp [h']) h0
        · exact h'
      have hlt : n / 10 < f := by
        have h1 : n / 10 < n := Nat.div_lt_self hnpos (by norm_num)
        omega
      obtain ⟨ds, hds, hne, hval⟩ := ih (n / 10) (Nat.digitChar (n % 10) :: acc) hlt
      refine ⟨ds ++ [Nat.digitChar (n % 10)], ?_, by simp, ?_⟩
      · simp [Nat.toDigitsCore, h0, hds]
      · rw [digitsVal_append, hval, digitVal_digitChar (Nat.mod_lt n (by norm_num))]
        have := Nat.div_add_mod n 10
        omega

theorem natRepr_injective : Function.Injective Nat.repr := by
  intro m n h
  obtain ⟨ds1, e1, _, v1⟩ := toDigitsCore_spec (m + 1) m [] (Nat.lt_succ_self m)
  obtain ⟨ds2, e2, _, v2⟩ := toDigitsCore_spec (n + 1) n [] (Nat.lt_succ_self n)
  have hm : Nat.repr m = String.mk ds1 := by
    simp [Nat.repr, Nat.toDigits, e1, List.asString]
  have hn : Nat.repr n = String.mk ds2 := by
    simp [Nat.repr, Nat.toDigits, e2, List.asString]
  rw [hm, hn] at h
  have : ds1 = ds2 := by injection h
  rw [← v1, ← v2, this]

theorem suffixName_injective (base : String) : Function.Injective (suffixName base) := by
  intro i j h
  have hdata : (suffixName base i).data = (suffixName base j).data := by rw [h]
  simp only [suffixName, String.data_append] at hdata
  have h1 : (toString i).data = (toString j).data := List.append_cancel_left hdata
  exact natRepr_injective (String.ext h1)

theorem exists_fresh_suffix (bindings : List (String × ToolBinding)) (base : String) :
    ∃ j, j < bindings.length + 1 ∧
      bindingExists bindings (suffixName base (2 + j)) = false := by
  by_contra hc
  push_neg at hc
  have hall : ∀ j < bindings.length + 1,
      suffixName base (2 + j) ∈ bindings.map Prod.fst := by
    intro j hj
    have hne := hc j hj
    have h' : bindingExists bindings (suffixName base (2 + j)) = true := by
      cases hbe : bindingExists bindings (suffixName base (2 + j)) with
      | false => exact absurd hbe hne
      | true => rfl
    simp only [bindingExists, List.any_eq_true] at h'
    obtain ⟨kv, hmem, heq⟩ := h'
    exact List.mem_map.2 ⟨kv, hmem, of_decide_eq_true heq⟩
  set L := (List.range (bindings.length + 1)).map (fun j => suffixName base (2 + j)) with hL
  have hnd : L.Nodup := by
    refine List.Nodup.map ?_ (List.nodup_range _)
    intro a b hab
    have := suffixName_injective base hab
    omega
  have hsub : ∀ x ∈ L, x ∈ bindings.map Prod.fst := by
    intro x hx
    simp only [hL, List.mem_map, List.mem_range] at hx
    obtain ⟨j, hj, rfl⟩ := hx
    exact hall j hj
  have hlen : L.length ≤ (bindings.map Prod.fst).length := by
    have h1 : L.toFinset.card = L.length := List.toFinset_card_of_nodup hnd
    have h2 : L.toFinset ⊆ (bindings.map Prod.fst).toFinset := by
      intro x hx
      exact List.mem_toFinset.2 (hsub x (List.mem_toFinset.1 hx))
    calc L.length = L.toFinset.card := h1.symm
      _ ≤ (bindings.map Prod.fst).toFinset.card := Finset.card_le_card h2
      _ ≤ (bindings.map Prod.fst).length := (bindings.map Prod.fst).toFinset_card_le
  simp only [hL, List.length_map, List.length_range] at hlen
  omega

theorem searchFresh_spec (bindings : List (String × ToolBinding)) (base : String) :
    ∀ fuel i, (∃ j, j < fuel ∧ bindingExists bindings (suffixName base (i + j)) = false) →
    ∃ k, searchFresh bindings base fuel i = suffixName base (i + k) ∧
      bindingExists bindings (suffixName base (i + k)) = false ∧
      ∀ j, j < k → bindingExists bindings (suffixName base (i + j)) = true := by
  intro fuel
  induction fuel with
  | zero => rintro i ⟨j, hj, _⟩; omega
  | succ f ih =>
    rintro i ⟨j, hj, hfree⟩
    by_cases hb : bindingExists bindings (suffixName base i) = true
    · have hj0 : j ≠ 0 := by
        intro h
        rw [h, Nat.add_zero] at hfree
        rw [hb] at hfree
        exact Bool.noConfusion hfree
      obtain ⟨k, hk1, hk2, hk3⟩ := ih (i + 1)
        ⟨j - 1, by omega, by
          have harith : i + 1 + (j - 1) = i + j := by omega
          rw [harith]; exact hfree⟩
      refine ⟨k + 1, ?_, ?_, ?_⟩
      · have : searchFresh bindings base (f + 1) i = searchFresh bindings base f (i + 1) := by
          simp [searchFresh, hb]
        rw [this, hk1]
        congr 1
        omega
      · have harith : i + (k + 1) = i + 1 + k := by omega
        rw [harith]; exact hk2
      · intro j' hj'
        rcases Nat.eq_zero_or_pos j' with h0 | h0
        · rw [h0, Nat.add_zero]; exact hb
        · have := hk3 (j' - 1) (by omega)
          have harith : i + 1 + (j' - 1) = i + j' := by omega
          rw [harith] at this
          exact this
    · have hbf : bindingExists bindings (suffixName base i) = false :=
        Bool.eq_false_iff.mpr hb
      refine ⟨0, ?_, by rw [Nat.add_zero]; exact hbf, fun j' hj' => absurd hj' (Nat.not_lt_zero j')⟩
      simp [searchFresh, hbf]

/-- The name chosen by the suffix loop is never already bound. -/
theorem resolveName_fresh (bindings : List (String × ToolBinding)) (base : String) :
    bindingExists bindings (resolveName bindings base) = false := by
  unfold resolveName
  by_cases hb : bindingExists bindings base = true
  · rw [if_pos hb]
    obtain ⟨j, hj, hfree⟩ := exists_fresh_suffix bindings base
    obtain ⟨k, hk1, hk2, _⟩ := searchFresh_spec bindings base (bindings.length + 1) 2 ⟨j, hj, hfree⟩
    rw [hk1]; exact hk2
  · rw [if_neg hb]
    exact Bool.eq_false_iff.mpr hb

/-- Full characterization of the collision resolution: an unbound name is
kept; a bound one gets the first unbound candidate `base_i`, i ≥ 2. -/
theorem resolveName_charact (bindings : List (String × ToolBinding)) (base : String) :
    (bindingExists bindings base = false → resolveName bindings base = base) ∧
    (bindingExists bindings base = true →
      ∃ i, 2 ≤ i ∧ resolveName bindings base = suffixName base i ∧
        bindingExists bindings (suffixName base i) = false ∧
        ∀ j, 2 ≤ j → j < i → bindingExists bindings (suffixName base j) = true) := by
  constructor
  · intro hb
    unfold resolveName
    rw [hb]
    simp
  · intro hb
    obtain ⟨j, hj, hfree⟩ := exists_fresh_suffix bindings base
    obtain ⟨k, hk1, hk2, hk3⟩ := searchFresh_spec bindings base (bindings.length + 1) 2 ⟨j, hj, hfree⟩
    refine ⟨2 + k, by omega, ?_, hk2, ?_⟩
    · unfold resolveName
      rw [if_pos hb, hk1]
    · intro j' h2 hlt
      have := hk3 (j' - 2) (by omega)
      have harith : 2 + (j' - 2) = j' := by omega
      rw [harith] at this
      exact this

/-! ### JSON serialization (model of `json.Marshal` for result rendering;
no claim inspects serialized output, so HTML-escaping of `<`, `>`, `&`
performed by Go's encoder is not reproduced) -/

def jsonEscape (s : String) : String :=
  ⟨s.data.foldr
    (fun c acc =>
      if c = '"' then '\\' :: '"' :: acc
      else if c = '\\' then '\\' :: '\\' :: acc
      else if c = '\n' then '\\' :: 'n' :: acc
      else if c = '\t' then '\\' :: 't' :: acc
      else if c = '\r' then '\\' :: 'r' :: acc
      else c :: acc)
    []⟩

def jsonSerialize : JsonVal → String
  | .jNull => "null"
  | .jBool b => if b then "true" else "false"
  | .jNum n => toString n
  | .jStr s => "\"" ++ jsonEscape s ++ "\""
  | .jArr xs => "[" ++ goJoin (xs.attach.map (fun x => jsonSerialize x.1)) "," ++ "]"
  | .jObj fs =>
    "\x7b" ++
      goJoin (fs.attach.map
        (fun kv => "\"" ++ jsonEscape kv.1.1 ++ "\":" ++ jsonSerialize kv.1.2)) "," ++
    "\x7d"
decreasing_by
  all_goals simp_wf
  · have := List.sizeOf_lt_of_mem x.2
    omega
  · have h1 := List.sizeOf_lt_of_mem kv.2
    rcases kv with ⟨⟨a, b⟩, hm⟩
    simp at h1 ⊢
    omega

/-- `json.Marshal` of the whole `ToolCallResult` (fallback rendering),
with the struct's `omitempty` tags. -/
def marshalToolCallResult (result : ToolCallResult) : String :=
  let partFields := fun (p : ToolContentPart) =>
    "\x7b" ++
      goJoin
        ((if p.type = "" then [] else ["\"type\":\"" ++ jsonEscape p.type ++ "\""]) ++
         (if p.text = "" then [] else ["\"text\":\"" ++ jsonEscape p.text ++ "\""])) "," ++
    "\x7d"
  let fields :=
    (if result.content = [] then []
     else ["\"content\":[" ++ goJoin (result.content.map partFields) "," ++ "]"]) ++
    (match result.structuredContent with
     | none => []
     | some v => ["\"structuredContent\":" ++ jsonSerialize v]) ++
    (if result.isError then ["\"isError\":true"] else [])
  "\x7b" ++ goJoin fields "," ++ "\x7d"

/-- `renderToolResult` (provider.go). -/
def renderToolResult (result : ToolCallResult) : String :=
  let textParts :=
    (result.content.filter
      (fun item => goEqualFold item.type "text" ∧ goTrim item.text ≠ "")).map (·.text)
  if textParts ≠ [] then goJoin textParts "\n"
  else
    match result.structuredContent with
    | some v => jsonSerialize v
    | none => marshalToolCallResult result

/-! ### Tool argument parsing (`provider.go`, `parseToolArguments`) -/

/-- `json.Unmarshal(data, &args)` for `args : map[string]any`: `.ok none`
is the JSON-null case, which leaves the map `nil` without error. -/
def goUnmarshalMap (s : String) : Except String (Option (List (String × JsonVal))) :=
  match jsonParse s with
  | none => .error "invalid json"
  | some (.jObj fields) => .ok (some fields)
  | some .jNull => .ok none
  | some _ => .error "cannot unmarshal value into map"

def parseToolArguments (raw : String) : Except String (List (String × JsonVal)) :=
  let trimmed := goTrim raw
  if trimmed = "" then .ok []
  else
    match goUnmarshalMap trimmed with
    | .error e => .error e
    | .ok args? =>
      match args? with
      | none => .ok []
      | some args => .ok args

/-! ### `RefreshTools` (provider.go) -/

structure RefreshResult where
  defs : List ToolDefinition
  bindings : List (String × ToolBinding)
  err : Option String

/-- One iteration of the inner per-tool loop of `RefreshTools`. -/
def collectStep (cfg : List Service) (svc : Service)
    (acc : List ToolDefinition × List (String × ToolBinding)) (tool : Tool) :
    List ToolDefinition × List (String × ToolBinding) :=
  if ¬ IsServiceToolEnabled cfg svc.id tool.name then acc
  else
    let dz := toToolDefinition svc tool
    let name := resolveName acc.2 dz.1.function.name
    (acc.1 ++ [{ dz.1 with function := { dz.1.function with name := name } }],
     acc.2 ++ [(name, dz.2)])

/-- The inner per-tool loop of `RefreshTools`. -/
def collectServiceTools (cfg : List Service) (svc : Service) (tools : List Tool)
    (acc : List ToolDefinition × List (String × ToolBinding)) :
    List ToolDefinition × List (String × ToolBinding) :=
  tools.foldl (collectStep cfg svc) acc

theorem listLtB_iff_lt : ∀ as bs : List Char,
    listLtB as bs = true ↔ List.Lex (· < ·) as bs := by
  intro as
  induction as with
  | nil =>
    intro bs
    cases bs with
    | nil =>
      constructor
      · intro h; exact Bool.noConfusion h
      · intro h; cases h
    | cons b bs =>
      constructor
      · intro _; exact List.Lex.nil
      · intro _; rfl
  | cons a as ih =>
    intro bs
    cases bs with
    | nil =>
      constructor
      · intro h; exact Bool.noConfusion h
      · intro h; cases h
    | cons b bs =>
      show (if a < b then true else if b < a then false else listLtB as bs) = true ↔ _
      by_cases hab : a < b
      · rw [if_pos hab]
        constructor
        · intro _; exact List.Lex.rel hab
        · intro _; rfl
      · rw [if_neg hab]
        by_cases hba : b < a
        · rw [if_pos hba]
          constructor
          · intro h; exact Bool.noConfusion h
          · intro h
            cases h with
            | rel h' => exact absurd h' hab
            | cons h' => exact absurd hba (lt_irrefl a)
        · rw [if_neg hba]
          have heq : a = b := le_antisymm (le_of_not_lt hba) (le_of_not_lt hab)
          subst heq
          rw [ih bs]
          constructor
          · intro h; exact List.Lex.cons h
          · intro h
            cases h with
            | rel h' => exact absurd h' hab
            | cons h' => exact h'

theorem goStrLt_iff (a b : String) : goStrLt a b = true ↔ a < b := by
  rw [String.lt_iff_toList_lt]
  exact listLtB_iff_lt a.data b.data

theorem goStrLe_iff (a b : String) : goStrLe a b = true ↔ a ≤ b := by
  unfold goStrLe
  rw [Bool.not_eq_true']
  constructor
  · intro h
    by_contra hle
    have hlt : b < a := lt_of_not_le hle
    exact absurd ((goStrLt_iff b a).2 hlt) (by simp [h])
  · intro h
    by_contra hne
    have : goStrLt b a = true := by
      cases hx : goStrLt b a with
      | false => exact absurd hx hne
      | true => rfl
    exact absurd ((goStrLt_iff b a).1 this) (not_lt_of_le h)

/-- The sort relation of `RefreshTools` (ascending exposed name). -/
def defLE (a b : ToolDefinition) : Prop :=
  goStrLe a.function.name b.function.name = true

instance : DecidableRel defLE := fun a b =>
  inferInstanceAs (Decidable (goStrLe a.function.name b.function.name = true))

instance : IsTotal ToolDefinition defLE :=
  ⟨fun a b => by
    unfold defLE
    rw [goStrLe_iff, goStrLe_iff]
    exact le_total a.function.name b.function.name⟩

instance : IsTrans ToolDefinition defLE :=
  ⟨fun a b c hab hbc => by
    unfold defLE at *
    rw [goStrLe_iff] at *
    exact le_trans hab hbc⟩

/-- `RefreshTools` (provider.go).  `client` abstracts
`HTTPClient.ListTools`; a failing service is skipped silently.  The Go
function's single `return cached, nil` makes the error component
constantly `nil`, recorded in `err`. -/
def refreshStep (cfg : List Service) (client : Service → Except String (List Tool))
    (acc : List ToolDefinition × List (String × ToolBinding)) (svc : Service) :
    List ToolDefinition × List (String × ToolBinding) :=
  match client svc with
  | .error _ => acc
  | .ok tools => collectServiceTools cfg svc tools acc

def RefreshTools (cfg : List Service) (client : Service → Except String (List Tool)) :
    RefreshResult :=
  let services := ListEnabledServices cfg
  let acc := services.foldl (refreshStep cfg client) ([], [])
  { defs := List.insertionSort defLE acc.1, bindings := acc.2, err := none }

/-! ### Provider state, `ListTools` and `CallTool` (provider.go) -/

structure ProviderState where
  cacheUntil : Int
  tools : List ToolDefinition
  bindings : List (String × ToolBinding)

/-- `RefreshTools` including the cache swap (provider.go lines 99-106);
`now` models the `time.Now()` read. -/
def RefreshToolsP (cfg : List Service) (client : Service → Except String (List Tool))
    (cacheTTL now : Int) (_st : ProviderState) :
    (List ToolDefinition × Option String) × ProviderState :=
  let r := RefreshTools cfg client
  ((r.defs, r.err),
   { cacheUntil := now + cacheTTL, tools := r.defs, bindings := r.bindings })

/-- `ListTools` (provider.go): cached copy when the deadline has not
passed and the cache is non-empty, else a full refresh.  The `Bool`
records whether a refresh (and hence per-service network traffic)
happened. -/
def ListToolsP (cfg : List Service) (client : Service → Except String (List Tool))
    (cacheTTL now : Int) (st : ProviderState) :
    (List ToolDefinition × Option String) × ProviderState × Bool :=
  if now < st.cacheUntil ∧ 0 < st.tools.length then ((st.tools, none), st, false)
  else
    let (r, st') := RefreshToolsP cfg client cacheTTL now st
    (r, st', true)

inductive CallErr where
  | refreshFailed : String → CallErr
  | unknownTool : String → CallErr
  | serviceNotFound : String → CallErr
  | serviceDisabled : String → CallErr
  | toolDisabled : String → String → CallErr
  | invalidArgs : String → String → CallErr
  | clientError : String → CallErr
  | toolError : String → CallErr
deriving DecidableEq

/-- `lookupBinding` (provider.go). -/
def lookupBinding (st : ProviderState) (toolName : String) : Option ToolBinding :=
  (st.bindings.find? (fun kv => kv.1 = toolName)).map Prod.snd

structure CallOutcome where
  result : Except CallErr String
  state : ProviderState
  refreshCount : Nat
  rpcIssued : Bool
  refreshErrBranch : Bool

/-- `CallTool` after a binding has been resolved (provider.go lines
121-147). -/
def callToolResolved (cfg : List Service)
    (clientCall : Service → String → List (String × JsonVal) → Except String ToolCallResult)
    (st : ProviderState) (refreshCount : Nat) (binding : ToolBinding) (call : ToolCall) :
    CallOutcome :=
  match GetService cfg binding.serviceID with
  | none => ⟨.error (.serviceNotFound binding.serviceID), st, refreshCount, false, false⟩
  | some service =>
    if ¬ service.enabled then
      ⟨.error (.serviceDisabled binding.serviceID), st, refreshCount, false, false⟩
    else if ¬ IsServiceToolEnabled cfg binding.serviceID binding.toolName then
      ⟨.error (.toolDisabled binding.serviceID binding.toolName), st, refreshCount, false, false⟩
    else
      match parseToolArguments call.function.arguments with
      | .error e => ⟨.error (.invalidArgs call.function.name e), st, refreshCount, false, false⟩
      | .ok args =>
        match clientCall service binding.toolName args with
        | .error e => ⟨.error (.clientError e), st, refreshCount, true, false⟩
        | .ok result =>
          let out := renderToolResult result
          if result.isError then
            ⟨.error (.toolError (goTrim out)), st, refreshCount, true, false⟩
          else ⟨.ok out, st, refreshCount, true, false⟩

/-- `CallTool` (provider.go lines 109-147).  `client` abstracts
`HTTPClient.ListTools` used by the forced refresh, `clientCall` abstracts
`HTTPClient.CallTool`. -/
def CallToolP (cfg : List Service) (client : Service → Except String (List Tool))
    (clientCall : Service → String → List (String × JsonVal) → Except String ToolCallResult)
    (cacheTTL now : Int) (st : ProviderState) (call : ToolCall) : CallOutcome :=
  match lookupBinding st call.function.name with
  | some binding => callToolResolved cfg clientCall st 0 binding call
  | none =>
    let r := RefreshTools cfg client
    let st1 : ProviderState :=
      { cacheUntil := now + cacheTTL, tools := r.defs, bindings := r.bindings }
    match r.err with
    | some e => ⟨.error (.refreshFailed e), st1, 1, false, true⟩
    | none =>
      match lookupBinding st1 call.function.name with
      | none => ⟨.error (.unknownTool call.function.name), st1, 1, false, false⟩
      | some binding => callToolResolved cfg clientCall st1 1 binding call

/-! ### Protocol client session/retry logic (`client.go`, `callRPC` /
`ensureSession`)

Network I/O of `postRPC` is abstracted as an oracle indexed by the number
of `postRPC` invocations so far; the interpreter threads the session map
and logs every request it would have sent. -/

structure PostOut where
  result : Except String String
  sessionHeader : Option String

structure PostReqLog where
  method : String
  sessionID : String
  expectResponse : Bool
deriving DecidableEq

structure ClientState where
  sessions : List (String × String)
  calls : Nat
  trace : List PostReqLog
deriving DecidableEq

/-- Go map read with zero-value default (`c.sessions[serviceID]`). -/
def getSession (st : ClientState) (serviceID : String) : String :=
  match st.sessions.find? (fun kv => kv.1 = serviceID) with
  | some kv => kv.2
  | none => ""

def setSession (st : ClientState) (serviceID sessionID : String) : ClientState :=
  { st with sessions := (serviceID, sessionID) :: st.sessions.filter (fun kv => kv.1 ≠ serviceID) }

def clearSession (st : ClientState) (serviceID : String) : ClientState :=
  { st with sessions := st.sessions.filter (fun kv => kv.1 ≠ serviceID) }

/-- One `postRPC` network exchange, as seen through the oracle. -/
def postRPCStep (oracle : Nat → PostOut) (method sessionID : String)
    (expectResponse : Bool) (st : ClientState) : PostOut × ClientState :=
  (oracle st.calls,
   { st with calls := st.calls + 1,
             trace := st.trace ++ [⟨method, sessionID, expectResponse⟩] })

/-- `updateSessionFromHeaders` (client.go). -/
def updateSessionFromHeaders (st : ClientState) (serviceID : String)
    (headers : Option String) : ClientState :=
  let sid := goTrim (headers.getD "")
  if sid = "" then st else setSession st serviceID sid

/-- `ensureSession` (client.go): reuse a cached session or perform the
`initialize` handshake followed by the `initialized` notification. -/
def ensureSession (oracle : Nat → PostOut) (svc : Service) (st : ClientState) :
    Except String String × ClientState :=
  let sid := getSession st svc.id
  if sid ≠ "" then (.ok sid, st)
  else
    let (out, st1) := postRPCStep oracle "initialize" "" true st
    match out.result with
    | .error e => (.error ("initialize mcp service \"" ++ svc.id ++ "\" failed: " ++ e), st1)
    | .ok _ =>
      let sessionID := goTrim (out.sessionHeader.getD "")
      let st2 := if sessionID ≠ "" then setSession st1 svc.id sessionID else st1
      let (out2, st3) := postRPCStep oracle "notifications/initialized" sessionID false st2
      match out2.result with
      | .error e => (.error ("send initialized notification failed: " ++ e), st3)
      | .ok _ => (.ok sessionID, st3)

/-- `callRPC` (client.go lines 94-135).  The subprocess branch spawns a
fresh process with no session state; its outcome is abstracted as
`stdioOutcome`. -/
def callRPC (oracle : Nat → PostOut) (stdioOutcome : Except String String)
    (svc : Service) (method : String) (st : ClientState) :
    Except String String × ClientState :=
  if normalizeServiceTransport svc.transport = ServiceTransportStdio then (stdioOutcome, st)
  else
    match ensureSession oracle svc st with
    | (.error e, st1) => (.error e, st1)
    | (.ok sessionID, st1) =>
      let (out, st2) := postRPCStep oracle method sessionID true st1
      match out.result with
      | .ok result => (.ok result, updateSessionFromHeaders st2 svc.id out.sessionHeader)
      | .error e =>
        if sessionID = "" then (.error e, st2)
        else
          let st3 := clearSession st2 svc.id
          match ensureSession oracle svc st3 with
          | (.error reinitErr, st4) =>
            (.error ("rpc failed: " ++ e ++ "; reinitialize failed: " ++ reinitErr), st4)
          | (.ok sessionID2, st4) =>
            let (out2, st5) := postRPCStep oracle method sessionID2 true st4
            match out2.result with
            | .error retryErr => (.error ("rpc failed after session retry: " ++ retryErr), st5)
            | .ok result2 => (.ok result2, updateSessionFromHeaders st5 svc.id out2.sessionHeader)

/-- Shape test used to state the argument-parsing claim: the payloads Go's
unmarshal-into-map accepts without a type error. -/
def isObjOrNull : JsonVal → Bool
  | .jObj _ => true
  | .jNull => true
  | _ => false

/-! ### Concrete fixtures used by witnesses and counterexamples -/

def wService (id : String) (states : List ServiceToolState) : Service :=
  ⟨id, id, "http://example", "", "", "", [], true, states⟩

def wTool (n : String) : Tool := ⟨n, "", none⟩

def wCall (n args : String) : ToolCall := ⟨"call-1", "function", ⟨n, args⟩⟩

def wClientDown : Service → Except String (List Tool) := fun _ => .error "down"

def wCallDown : Service → String → List (String × JsonVal) → Except String ToolCallResult :=
  fun _ _ _ => .error "down"

def wDef : ToolDefinition := ⟨"function", ⟨"n", "d", .jNull⟩⟩

/-! ### Helper lemmas -/

theorem bindingExists_eq_false_iff (b : List (String × ToolBinding)) (n : String) :
    bindingExists b n = false ↔ n ∉ b.map Prod.fst := by
  rw [← Bool.not_eq_true]
  constructor
  · intro h hmem
    apply h
    simp only [bindingExists, List.any_eq_true, decide_eq_true_eq]
    obtain ⟨kv, hkv, hfst⟩ := List.mem_map.1 hmem
    exact ⟨kv, hkv, hfst⟩
  · intro h hb
    apply h
    simp only [bindingExists, List.any_eq_true, decide_eq_true_eq] at hb
    obtain ⟨kv, hkv, hfst⟩ := hb
    exact List.mem_map.2 ⟨kv, hkv, hfst⟩

theorem dropWhile_head_false {α : Type} (p : α → Bool) (l : List α) :
    l.dropWhile p = [] ∨ ∃ c t, l.dropWhile p = c :: t ∧ p c = false := by
  induction l with
  | nil => exact .inl rfl
  | cons c t ih =>
    by_cases h : p c = true
    · rw [List.dropWhile_cons_of_pos h]
      exact ih
    · rw [List.dropWhile_cons_of_neg h]
      exact .inr ⟨c, t, rfl, Bool.eq_false_iff.mpr h⟩

theorem dropWhile_cons_false {α : Type} {p : α → Bool} {c : α} (t : List α)
    (h : p c = false) : (c :: t).dropWhile p = c :: t :=
  List.dropWhile_cons_of_neg (by simp [h])

theorem dropWhile_idem {α : Type} (p : α → Bool) (l : List α) :
    (l.dropWhile p).dropWhile p = l.dropWhile p := by
  rcases dropWhile_head_false p l with h | ⟨c, t, h, hc⟩
  · rw [h]; rfl
  · rw [h]; exact dropWhile_cons_false t hc

theorem dropWhile_suffix {α : Type} (p : α → Bool) (l : List α) :
    l.dropWhile p <:+ l := by
  induction l with
  | nil => exact List.suffix_refl _
  | cons c t ih =>
    by_cases h : p c = true
    · rw [List.dropWhile_cons_of_pos h]
      exact ih.trans (List.suffix_cons c t)
    · rw [List.dropWhile_cons_of_neg h]

/-- The two-sided whitespace trim on character lists. -/
def trimEnds (p : Char → Bool) (l : List Char) : List Char :=
  ((l.dropWhile p).reverse.dropWhile p).reverse

theorem trimEnds_idem (p : Char → Bool) (l : List Char) :
    trimEnds p (trimEnds p l) = trimEnds p l := by
  set m := l.dropWhile p with hm
  set r := m.reverse.dropWhile p with hr
  have hsuffix : r <:+ m.reverse := dropWhile_suffix p m.reverse
  -- `r.reverse` is a prefix of `m`, so its head (if any) fails `p`
  have hdrop_g : r.reverse.dropWhile p = r.reverse := by
    rcases hsuffix with ⟨t, ht⟩
    cases hre : r.reverse with
    | nil => rfl
    | cons c g' =>
      have hm_eq : m = r.reverse ++ t.reverse := by
        have := congrArg List.reverse ht
        simpa [List.reverse_append] using this.symm
      have hchead : m = c :: (g' ++ t.reverse) := by
        rw [hm_eq, hre]; simp
      have hc_false : p c = false := by
        rcases dropWhile_head_false p l with h | ⟨c', t', h, hc'⟩
        · rw [← hm] at h
          rw [h] at hchead
          exact absurd hchead (by simp)
        · rw [← hm] at h
          rw [h] at hchead
          have hcc : c' = c := by
            have hh := congrArg List.head? hchead
            simpa using hh
          rw [← hcc]; exact hc'
      exact dropWhile_cons_false _ hc_false
  show ((r.reverse.dropWhile p).reverse.dropWhile p).reverse = r.reverse
  rw [hdrop_g]
  simp only [List.reverse_reverse]
  rw [hr, dropWhile_idem]

theorem goTrim_data (s : String) : (goTrim s).data = trimEnds Char.isWhitespace s.data := rfl

theorem goTrim_idem (s : String) : goTrim (goTrim s) = goTrim s := by
  apply String.ext
  rw [goTrim_data, goTrim_data, trimEnds_idem]

theorem refresh_err_none (cfg : List Service) (client : Service → Except String (List Tool)) :
    (RefreshTools cfg client).err = none := rfl

theorem callToolResolved_fields (cfg : List Service)
    (clientCall : Service → String → List (String × JsonVal) → Except String ToolCallResult)
    (st : ProviderState) (rc : Nat) (binding : ToolBinding) (call : ToolCall) :
    (callToolResolved cfg clientCall st rc binding call).refreshErrBranch = false ∧
    (callToolResolved cfg clientCall st rc binding call).refreshCount = rc ∧
    (callToolResolved cfg clientCall st rc binding call).state = st := by
  unfold callToolResolved
  rcases GetService cfg binding.serviceID with _ | service
  · exact ⟨rfl, rfl, rfl⟩
  · dsimp only
    split
    · exact ⟨rfl, rfl, rfl⟩
    · split
      · exact ⟨rfl, rfl, rfl⟩
      · rcases parseToolArguments call.function.arguments with e | args
        · exact ⟨rfl, rfl, rfl⟩
        · dsimp only
          rcases clientCall service binding.toolName args with e | result
          · exact ⟨rfl, rfl, rfl⟩
          · dsimp only
            split <;> exact ⟨rfl, rfl, rfl⟩

/-! ### Theorems for the claims -/

/-- C9: `RefreshTools` returns a nil error for every store state and every
per-service client outcome (a failing service merely contributes no
tools), `ListTools` therefore never returns a non-nil error, and the
refresh-failure branch inside `CallTool` is unreachable. -/
theorem refreshTools_never_errors (cfg : List Service)
    (client : Service → Except String (List Tool))
    (clientCall : Service → String → List (String × JsonVal) → Except String ToolCallResult)
    (cacheTTL now : Int) (st : ProviderState) (call : ToolCall) :
    (RefreshTools cfg client).err = none ∧
    (ListToolsP cfg client cacheTTL now st).1.2 = none ∧
    (CallToolP cfg client clientCall cacheTTL now st call).refreshErrBranch = false := by
  refine ⟨rfl, ?_, ?_⟩
  · unfold ListToolsP
    split
    · rfl
    · rfl
  · unfold CallToolP
    split
    · exact (callToolResolved_fields ..).1
    · dsimp only
      split
      · next heq =>
        rw [refresh_err_none] at heq
        exact Option.noConfusion heq
      · split
        · rfl
        · exact (callToolResolved_fields ..).1

/-- C4: an invocation whose function name is absent from the current
binding table performs exactly one `RefreshTools` and retries resolution
once; if the name is still unbound it fails with the unknown-tool error
and no `tools/call` RPC is issued. -/
theorem callTool_miss_refreshes_once (cfg : List Service)
    (client : Service → Except String (List Tool))
    (clientCall : Service → String → List (String × JsonVal) → Except String ToolCallResult)
    (cacheTTL now : Int) (st : ProviderState) (call : ToolCall)
    (hmiss : lookupBinding st call.function.name = none) :
    (CallToolP cfg client clientCall cacheTTL now st call).refreshCount = 1 ∧
    (CallToolP cfg client clientCall cacheTTL now st call).state.bindings =
      (RefreshTools cfg client).bindings ∧
    ((RefreshTools cfg client).bindings.find?
        (fun kv => kv.1 = call.function.name) = none →
      (CallToolP cfg client clientCall cacheTTL now st call).result =
        .error (.unknownTool call.function.name) ∧
      (CallToolP cfg client clientCall cacheTTL now st call).rpcIssued = false) := by
  unfold CallToolP
  rw [hmiss]
  dsimp only
  split
  · next heq =>
    rw [refresh_err_none] at heq
    exact Option.noConfusion heq
  · split
    · next heq =>
      refine ⟨rfl, rfl, fun _ => ⟨rfl, rfl⟩⟩
    · next binding heq =>
      refine ⟨(callToolResolved_fields ..).2.1, ?_, ?_⟩
      · rw [(callToolResolved_fields ..).2.2]
      · intro hfind
        rw [show lookupBinding
            { cacheUntil := now + cacheTTL, tools := (RefreshTools cfg client).defs,
              bindings := (RefreshTools cfg client).bindings } call.function.name =
            ((RefreshTools cfg client).bindings.find?
              (fun kv => kv.1 = call.function.name)).map Prod.snd from rfl,
          hfind] at heq
        exact Option.noConfusion heq

/-- C7: `ListTools` returns the cached list without refreshing exactly
when the cache is non-empty and the current time is before the TTL
deadline; otherwise it performs a full `RefreshTools` and returns its
result.  Consequently a second call within the TTL window (on a non-empty
cache) returns identical output with no refresh, and a call at or after
the deadline triggers a refresh. -/
theorem listTools_ttl_cache (cfg : List Service)
    (client : Service → Except String (List Tool)) (cacheTTL now : Int)
    (st : ProviderState) :
    ((ListToolsP cfg client cacheTTL now st).2.2 = false ↔
      now < st.cacheUntil ∧ 0 < st.tools.length) ∧
    (now < st.cacheUntil ∧ 0 < st.tools.length →
      ListToolsP cfg client cacheTTL now st = ((st.tools, none), st, false)) ∧
    (¬(now < st.cacheUntil ∧ 0 < st.tools.length) →
      ListToolsP cfg client cacheTTL now st =
        (((RefreshTools cfg client).defs, none),
         { cacheUntil := now + cacheTTL, tools := (RefreshTools cfg client).defs,
           bindings := (RefreshTools cfg client).bindings }, true)) ∧
    (∀ now2 : Int,
      now2 < (ListToolsP cfg client cacheTTL now st).2.1.cacheUntil →
      0 < (ListToolsP cfg client cacheTTL now st).2.1.tools.length →
      ListToolsP cfg client cacheTTL now2 (ListToolsP cfg client cacheTTL now st).2.1 =
        ((ListToolsP cfg client cacheTTL now st).1,
         (ListToolsP cfg client cacheTTL now st).2.1, false)) ∧
    (∀ now2 : Int, (ListToolsP cfg client cacheTTL now st).2.1.cacheUntil ≤ now2 →
      (ListToolsP cfg client cacheTTL now2 (ListToolsP cfg client cacheTTL now st).2.1).2.2 =
        true) := by
  have h1 : ∀ (n : Int) (s : ProviderState), (n < s.cacheUntil ∧ 0 < s.tools.length) →
      ListToolsP cfg client cacheTTL n s = ((s.tools, none), s, false) := by
    intro n s h
    unfold ListToolsP
    rw [if_pos h]
  have h2 : ∀ (n : Int) (s : ProviderState), ¬(n < s.cacheUntil ∧ 0 < s.tools.length) →
      ListToolsP cfg client cacheTTL n s =
        (((RefreshTools cfg client).defs, none),
         { cacheUntil := n + cacheTTL, tools := (RefreshTools cfg client).defs,
           bindings := (RefreshTools cfg client).bindings }, true) := by
    intro n s h
    unfold ListToolsP
    rw [if_neg h]
    rfl
  refine ⟨?_, h1 now st, h2 now st, ?_, ?_⟩
  · by_cases hc : now < st.cacheUntil ∧ 0 < st.tools.length
    · rw [h1 now st hc]
      simpa using hc
    · rw [h2 now st hc]
      simpa using hc
  · intro now2 ha hb
    rw [h1 now2 _ ⟨ha, hb⟩]
    by_cases hc : now < st.cacheUntil ∧ 0 < st.tools.length
    · rw [h1 now st hc]
    · rw [h2 now st hc]
  · intro now2 h
    have hneg : ¬(now2 < (ListToolsP cfg client cacheTTL now st).2.1.cacheUntil ∧
        0 < (ListToolsP cfg client cacheTTL now st).2.1.tools.length) := by
      intro hx
      exact absurd hx.1 (not_lt.mpr h)
    rw [h2 now2 _ hneg]

/-- C8 (amended): the argument payload is trimmed and parsed before
dispatch; an absent or whitespace-only payload yields the empty object, a
JSON object yields the corresponding map, a JSON null ALSO yields the
empty object (the code replaces the nil map), and every other payload —
non-object values and malformed JSON — makes `CallTool` fail with the
invalid-arguments error. -/
theorem parseToolArguments_spec (raw : String) :
    (goTrim raw = "" → parseToolArguments raw = .ok []) ∧
    (∀ fields, jsonParse (goTrim raw) = some (.jObj fields) →
      parseToolArguments raw = .ok fields) ∧
    (jsonParse (goTrim raw) = some .jNull → parseToolArguments raw = .ok []) ∧
    (∀ v, goTrim raw ≠ "" → jsonParse (goTrim raw) = some v → isObjOrNull v = false →
      parseToolArguments raw = .error "cannot unmarshal value into map") ∧
    (goTrim raw ≠ "" → jsonParse (goTrim raw) = none →
      parseToolArguments raw = .error "invalid json") ∧
    (∀ cfg clientCall st rc binding (call : ToolCall) service e,
      GetService cfg binding.serviceID = some service → service.enabled = true →
      IsServiceToolEnabled cfg binding.serviceID binding.toolName = true →
      parseToolArguments call.function.arguments = .error e →
      (callToolResolved cfg clientCall st rc binding call).result =
        .error (.invalidArgs call.function.name e)) := by
  refine ⟨?_, ?_, ?_, ?_, ?_, ?_⟩
  · intro h
    unfold parseToolArguments
    rw [if_pos h]
  · intro fields h
    have hne : goTrim raw ≠ "" := by
      intro he
      rw [he] at h
      exact Option.noConfusion (show (none : Option JsonVal) = some (.jObj fields) from h)
    unfold parseToolArguments
    rw [if_neg hne]
    unfold goUnmarshalMap
    rw [h]
  · intro h
    have hne : goTrim raw ≠ "" := by
      intro he
      rw [he] at h
      exact Option.noConfusion (show (none : Option JsonVal) = some .jNull from h)
    unfold parseToolArguments
    rw [if_neg hne]
    unfold goUnmarshalMap
    rw [h]
  · intro v hne h hshape
    unfold parseToolArguments
    rw [if_neg hne]
    unfold goUnmarshalMap
    rw [h]
    cases v with
    | jNull => exact Bool.noConfusion hshape
    | jObj fields => exact Bool.noConfusion hshape
    | jBool b => rfl
    | jNum n => rfl
    | jStr s => rfl
    | jArr xs => rfl
  · intro hne h
    unfold parseToolArguments
    rw [if_neg hne]
    unfold goUnmarshalMap
    rw [h]
  · intro cfg clientCall st rc binding call service e hsvc hen htool hargs
    unfold callToolResolved
    rw [hsvc]
    dsimp only
    rw [if_neg (by rw [hen]; intro hx; exact hx rfl)]
    rw [if_neg (by rw [htool]; intro hx; exact hx rfl)]
    rw [hargs]

/-- Counterexample to C8 as stated: the payload `"null"` is not a JSON
object, yet `parseToolArguments` accepts it and yields the empty
argument map rather than an invalid-arguments error. -/
theorem parseToolArguments_null_accepted :
    jsonParse (goTrim "null") = some .jNull ∧
    (∀ fields, JsonVal.jNull ≠ JsonVal.jObj fields) ∧
    parseToolArguments "null" = .ok [] :=
  ⟨rfl, fun _ h => JsonVal.noConfusion h, rfl⟩

/-- Every record kept by `normalizeServiceToolStates` is an explicit
disabled override. -/
theorem normalize_members_disabled (xs : List ServiceToolState) :
    ∀ st ∈ normalizeServiceToolStates xs, st.enabled = false := by
  unfold normalizeServiceToolStates
  split
  · intro st h
    exact absurd h (List.not_mem_nil st)
  · intro st hmem
    have hperm := List.perm_insertionSort
      (fun a b : ServiceToolState => goStrLe a.name b.name = true)
      (xs.foldl
        (fun (m : List ServiceToolState) (q : ServiceToolState) =>
          let name := goTrim q.name
          if name = "" then m
          else if q.enabled then m.filter (fun r => r.name ≠ name)
          else (m.filter (fun r => r.name ≠ name)) ++ [⟨name, false⟩])
        [])
    have hmem' := hperm.mem_iff.mp hmem
    clear hmem hperm
    -- fold invariant: every member of the accumulator is disabled
    suffices h : ∀ (states : List ServiceToolState) (m : List ServiceToolState),
        (∀ q ∈ m, q.enabled = false) →
        ∀ q ∈ states.foldl
          (fun (m : List ServiceToolState) (q : ServiceToolState) =>
            let name := goTrim q.name
            if name = "" then m
            else if q.enabled then m.filter (fun r => r.name ≠ name)
            else (m.filter (fun r => r.name ≠ name)) ++ [⟨name, false⟩])
          m, q.enabled = false by
      exact h xs [] (fun q hq => absurd hq (List.not_mem_nil q)) st hmem'
    intro states
    induction states with
    | nil => intro m hm q hq; exact hm q hq
    | cons a rest ih =>
      intro m hm q hq
      rw [List.foldl_cons] at hq
      refine ih _ ?_ q hq
      intro r hr
      dsimp only at hr
      by_cases h1 : goTrim a.name = ""
      · rw [if_pos h1] at hr
        exact hm r hr
      · rw [if_neg h1] at hr
        by_cases h2 : a.enabled
        · rw [if_pos h2] at hr
          exact hm r (List.mem_of_mem_filter hr)
        · rw [if_neg h2] at hr
          rcases List.mem_append.mp hr with hrl | hrr
          · exact hm r (List.mem_of_mem_filter hrl)
          · rcases List.mem_singleton.mp hrr with rfl
            rfl

/-- C10: on a store whose service ids are distinct and whose tool-state
lists are in the normal form the store maintains,
`IsServiceToolEnabled` returns true exactly when the trimmed service id
names an existing service and the trimmed tool name carries no
explicitly-disabled override record on it; in particular it is false for
an unknown service and for blank inputs, and a tool with no record
defaults to enabled. -/
theorem isServiceToolEnabled_iff (cfg : List Service) (serviceID toolName : String)
    (hids : (cfg.map (·.id)).Nodup)
    (hnorm : ∀ svc ∈ cfg, normalizeServiceToolStates svc.toolStates = svc.toolStates) :
    (IsServiceToolEnabled cfg serviceID toolName = true ↔
      goTrim serviceID ≠ "" ∧ goTrim toolName ≠ "" ∧
      ∃ svc ∈ cfg, svc.id = goTrim serviceID ∧
        ¬ ∃ st ∈ svc.toolStates,
            goTrim st.name = goTrim toolName ∧ st.enabled = false) := by
  unfold IsServiceToolEnabled
  by_cases h0 : goTrim serviceID = "" ∨ goTrim toolName = ""
  · rw [if_pos h0]
    constructor
    · intro h; exact Bool.noConfusion h
    · rintro ⟨ha, hb, -⟩
      rcases h0 with h | h
      · exact absurd h ha
      · exact absurd h hb
  · rw [if_neg h0]
    push_neg at h0
    obtain ⟨hsid, htn⟩ := h0
    cases hfind : cfg.find? (fun svc => svc.id = goTrim serviceID) with
    | none =>
      constructor
      · intro h; exact Bool.noConfusion h
      · rintro ⟨-, -, svc, hmem, hid, -⟩
        have := List.find?_eq_none.mp hfind svc hmem
        simp only [decide_eq_true_eq] at this
        exact absurd hid this
    | some svc =>
      have hsvc_mem : svc ∈ cfg := List.mem_of_find?_eq_some hfind
      have hsvc_id : svc.id = goTrim serviceID := by
        have := List.find?_some hfind
        simpa using this
      -- first-match equals the unique match thanks to distinct ids
      constructor
      · intro h
        refine ⟨hsid, htn, svc, hsvc_mem, hsvc_id, ?_⟩
        simp only [serviceToolEnabled] at h
        rw [if_neg (by rw [goTrim_idem]; exact htn)] at h
        rintro ⟨st, hst_mem, hst_name, hst_dis⟩
        cases hfind2 : svc.toolStates.find?
            (fun q => goTrim q.name = goTrim (goTrim toolName)) with
        | none =>
          have := List.find?_eq_none.mp hfind2 st hst_mem
          simp only [decide_eq_true_eq, goTrim_idem] at this
          exact this hst_name
        | some q =>
          rw [hfind2] at h
          have hq_mem : q ∈ svc.toolStates := List.mem_of_find?_eq_some hfind2
          have hq_dis : q.enabled = false := by
            rw [← hnorm svc hsvc_mem] at hq_mem
            exact normalize_members_disabled svc.toolStates q hq_mem
          dsimp only at h
          rw [hq_dis] at h
          exact Bool.noConfusion h
      · rintro ⟨-, -, svc', hmem', hid', hno⟩
        have hsame : svc' = svc :=
          List.inj_on_of_nodup_map hids hmem' hsvc_mem (by rw [hid', hsvc_id])
        rw [hsame] at hno hmem'
        dsimp only
        simp only [serviceToolEnabled]
        rw [if_neg (by rw [goTrim_idem]; exact htn)]
        cases hfind2 : svc.toolStates.find?
            (fun q => goTrim q.name = goTrim (goTrim toolName)) with
        | none => rfl
        | some q =>
          exfalso
          apply hno
          have hq_mem : q ∈ svc.toolStates := List.mem_of_find?_eq_some hfind2
          have hq_name : goTrim q.name = goTrim toolName := by
            have := List.find?_some hfind2
            simpa [goTrim_idem] using this
          have hq_dis : q.enabled = false := by
            rw [← hnorm svc hmem'] at hq_mem
            exact normalize_members_disabled svc.toolStates q hq_mem
          exact ⟨q, hq_mem, hq_name, hq_dis⟩

/-! ### Name uniqueness and exposure lemmas for `RefreshTools` -/

theorem resolveName_shape (bnds : List (String × ToolBinding)) (base : String) :
    resolveName bnds base = base ∨
    ∃ i, 2 ≤ i ∧ resolveName bnds base = suffixName base i := by
  cases hb : bindingExists bnds base with
  | false => exact .inl ((resolveName_charact bnds base).1 hb)
  | true =>
    obtain ⟨i, h2, heq, -, -⟩ := (resolveName_charact bnds base).2 hb
    exact .inr ⟨i, h2, heq⟩

/-- The invariant carried through both loops of `RefreshTools`: the
definition names mirror the binding keys, in order, and the keys are
distinct. -/
def accInv (acc : List ToolDefinition × List (String × ToolBinding)) : Prop :=
  acc.1.map (·.function.name) = acc.2.map Prod.fst ∧ (acc.2.map Prod.fst).Nodup

theorem collectStep_inv (cfg : List Service) (svc : Service)
    (acc : List ToolDefinition × List (String × ToolBinding)) (tool : Tool)
    (h : accInv acc) : accInv (collectStep cfg svc acc tool) := by
  obtain ⟨hinv, hnd⟩ := h
  unfold collectStep
  split
  · exact ⟨hinv, hnd⟩
  · dsimp only
    refine ⟨?_, ?_⟩
    · rw [List.map_append, List.map_append, hinv]
      rfl
    · rw [List.map_append, List.nodup_append]
      have hfresh := resolveName_fresh acc.2 (toToolDefinition svc tool).1.function.name
      have hnotmem := (bindingExists_eq_false_iff _ _).1 hfresh
      refine ⟨hnd, by simp, ?_⟩
      intro a ha hb
      simp only [List.map_cons, List.map_nil, List.mem_singleton] at hb
      rw [hb] at ha
      exact hnotmem ha

theorem collect_cons (cfg : List Service) (svc : Service) (t : Tool) (rest : List Tool)
    (acc : List ToolDefinition × List (String × ToolBinding)) :
    collectServiceTools cfg svc (t :: rest) acc =
      collectServiceTools cfg svc rest (collectStep cfg svc acc t) := rfl

theorem collect_inv (cfg : List Service) (svc : Service) :
    ∀ (tools : List Tool) acc, accInv acc → accInv (collectServiceTools cfg svc tools acc) := by
  intro tools
  induction tools with
  | nil => intro acc h; exact h
  | cons t rest ih =>
    intro acc h
    rw [collect_cons]
    exact ih _ (collectStep_inv cfg svc acc t h)

theorem refreshStep_inv (cfg : List Service) (client : Service → Except String (List Tool))
    (acc : List ToolDefinition × List (String × ToolBinding)) (svc : Service)
    (h : accInv acc) : accInv (refreshStep cfg client acc svc) := by
  unfold refreshStep
  cases client svc with
  | error e => exact h
  | ok tools => exact collect_inv cfg svc tools acc h

theorem refreshFold_inv (cfg : List Service) (client : Service → Except String (List Tool)) :
    ∀ (svcs : List Service) acc, accInv acc →
      accInv (svcs.foldl (refreshStep cfg client) acc) := by
  intro svcs
  induction svcs with
  | nil => intro acc h; exact h
  | cons s rest ih =>
    intro acc h
    rw [List.foldl_cons]
    exact ih _ (refreshStep_inv cfg client acc s h)

theorem collectStep_extends (cfg : List Service) (svc : Service)
    (acc : List ToolDefinition × List (String × ToolBinding)) (tool : Tool) :
    ∃ tail, (collectStep cfg svc acc tool).2 = acc.2 ++ tail := by
  unfold collectStep
  split
  · exact ⟨[], by simp⟩
  · exact ⟨_, rfl⟩

theorem collect_extends (cfg : List Service) (svc : Service) :
    ∀ (tools : List Tool) acc,
      ∃ tail, (collectServiceTools cfg svc tools acc).2 = acc.2 ++ tail := by
  intro tools
  induction tools with
  | nil => intro acc; exact ⟨[], by simp [collectServiceTools]⟩
  | cons t rest ih =>
    intro acc
    obtain ⟨t1, h1⟩ := collectStep_extends cfg svc acc t
    obtain ⟨t2, h2⟩ := ih (collectStep cfg svc acc t)
    rw [collect_cons]
    exact ⟨t1 ++ t2, by rw [h2, h1, List.append_assoc]⟩

theorem refreshStep_extends (cfg : List Service)
    (client : Service → Except String (List Tool))
    (acc : List ToolDefinition × List (String × ToolBinding)) (svc : Service) :
    ∃ tail, (refreshStep cfg client acc svc).2 = acc.2 ++ tail := by
  unfold refreshStep
  cases client svc with
  | error e => exact ⟨[], by simp⟩
  | ok tools => exact collect_extends cfg svc tools acc

theorem refreshFold_extends (cfg : List Service)
    (client : Service → Except String (List Tool)) :
    ∀ (svcs : List Service) acc,
      ∃ tail, (svcs.foldl (refreshStep cfg client) acc).2 = acc.2 ++ tail := by
  intro svcs
  induction svcs with
  | nil => intro acc; exact ⟨[], by simp⟩
  | cons s rest ih =>
    intro acc
    obtain ⟨t1, h1⟩ := refreshStep_extends cfg client acc s
    obtain ⟨t2, h2⟩ := ih (refreshStep cfg client acc s)
    rw [List.foldl_cons]
    exact ⟨t1 ++ t2, by rw [h2, h1, List.append_assoc]⟩

theorem collect_adds (cfg : List Service) (svc : Service) :
    ∀ (tools : List Tool) acc (tool : Tool), tool ∈ tools →
      IsServiceToolEnabled cfg svc.id tool.name = true →
      ∃ name, (name, (toToolDefinition svc tool).2) ∈
          (collectServiceTools cfg svc tools acc).2 ∧
        (name = (toToolDefinition svc tool).1.function.name ∨
         ∃ i, 2 ≤ i ∧
           name = suffixName (toToolDefinition svc tool).1.function.name i) := by
  intro tools
  induction tools with
  | nil => intro acc tool h; exact absurd h (List.not_mem_nil _)
  | cons t rest ih =>
    intro acc tool hmem hen
    rcases List.mem_cons.1 hmem with rfl | hmem'
    · rw [collect_cons]
      obtain ⟨tail, hext⟩ := collect_extends cfg svc rest (collectStep cfg svc acc tool)
      refine ⟨resolveName acc.2 (toToolDefinition svc tool).1.function.name, ?_,
        resolveName_shape _ _⟩
      rw [hext]
      have hstep : (collectStep cfg svc acc tool).2 =
          acc.2 ++ [(resolveName acc.2 (toToolDefinition svc tool).1.function.name,
                     (toToolDefinition svc tool).2)] := by
        unfold collectStep
        rw [if_neg (not_not_intro hen)]
      rw [hstep]
      simp
    · rw [collect_cons]
      exact ih (collectStep cfg svc acc t) tool hmem' hen

theorem refresh_adds (cfg : List Service)
    (client : Service → Except String (List Tool)) :
    ∀ (svcs : List Service) acc (svc : Service) (tools : List Tool) (tool : Tool),
      svc ∈ svcs → client svc = .ok tools → tool ∈ tools →
      IsServiceToolEnabled cfg svc.id tool.name = true →
      ∃ name, (name, (toToolDefinition svc tool).2) ∈
          (svcs.foldl (refreshStep cfg client) acc).2 ∧
        (name = (toToolDefinition svc tool).1.function.name ∨
         ∃ i, 2 ≤ i ∧
           name = suffixName (toToolDefinition svc tool).1.function.name i) := by
  intro svcs
  induction svcs with
  | nil => intro acc svc tools tool h; exact absurd h (List.not_mem_nil _)
  | cons s rest ih =>
    intro acc svc tools tool hmem hok htool hen
    rcases List.mem_cons.1 hmem with rfl | hmem'
    · rw [List.foldl_cons]
      obtain ⟨tail, hext⟩ := refreshFold_extends cfg client rest (refreshStep cfg client acc svc)
      obtain ⟨name, hin, hshape⟩ := collect_adds cfg svc tools acc tool htool hen
      refine ⟨name, ?_, hshape⟩
      rw [hext]
      have hstep : (refreshStep cfg client acc svc).2 =
          (collectServiceTools cfg svc tools acc).2 := by
        unfold refreshStep
        rw [hok]
      rw [hstep]
      exact List.mem_append_left tail hin
    · rw [List.foldl_cons]
      exact ih _ svc tools tool hmem' hok htool hen

/-! ### SSE reader lemmas -/

theorem readLine_append_line (line : List Char) (h : '\n' ∉ line) (rest : List Char) :
    readLine (line ++ '\n' :: rest) = (line ++ ['\n'], rest, false) := by
  induction line with
  | nil => simp [readLine]
  | cons c t ih =>
    have hc : ¬(c = '\n') := fun hc => h (hc ▸ List.mem_cons_self c t)
    have ht := ih (fun hm => h (List.mem_cons_of_mem c hm))
    simp only [List.cons_append, readLine, if_neg hc, List.append_eq, ht]

theorem readLine_eof (line : List Char) (h : '\n' ∉ line) :
    readLine line = (line, [], true) := by
  induction line with
  | nil => rfl
  | cons c t ih =>
    have hc : ¬(c = '\n') := fun hc => h (hc ▸ List.mem_cons_self c t)
    have ht := ih (fun hm => h (List.mem_cons_of_mem c hm))
    simp only [readLine, if_neg hc, ht]

theorem readLine_shrinks : ∀ input : List Char,
    (readLine input).2.2 = true ∨ (readLine input).2.1.length < input.length := by
  intro input
  induction input with
  | nil => exact .inl rfl
  | cons c cs ih =>
    by_cases hc : c = '\n'
    · right
      simp [readLine, hc]
    · rcases hrl : readLine cs with ⟨l, r, e⟩
      rw [hrl] at ih
      dsimp only at ih
      simp only [readLine, if_neg hc, hrl]
      rcases ih with he | hlen
      · exact .inl he
      · right
        simp only [List.length_cons]
        omega

theorem trimRightCRLF_append_newline (l : List Char) :
    trimRightCRLF (l ++ ['\n']) = trimRightCRLF l := by
  unfold trimRightCRLF
  rw [List.reverse_append]
  simp only [List.reverse_cons, List.reverse_nil, List.nil_append, List.singleton_append]
  rw [List.dropWhile_cons_of_pos (by simp)]

theorem trimRightCRLF_concat (l : List Char) (c : Char) (h1 : c ≠ '\r') (h2 : c ≠ '\n') :
    trimRightCRLF (l ++ [c]) = l ++ [c] := by
  unfold trimRightCRLF
  rw [List.reverse_append]
  simp only [List.reverse_cons, List.reverse_nil, List.nil_append, List.singleton_append]
  rw [dropWhile_cons_false _ (by simp [h1, h2])]
  simp

/-- A line with no carriage return and a non-empty or symbol-headed body
is stable under right CR/LF trimming when its last character is neither
CR nor LF. -/
theorem trimRightCRLF_stable_of_no_crlf (l : List Char)
    (h : ∀ c ∈ l, c ≠ '\r' ∧ c ≠ '\n') : trimRightCRLF l = l := by
  rcases List.eq_nil_or_concat l with rfl | ⟨l', a, rfl⟩
  · rfl
  · rw [List.concat_eq_append]
    have ha := h a (by simp)
    exact trimRightCRLF_concat l' a ha.1 ha.2

theorem readSSEEventLoop_mono : ∀ f1 : Nat, ∀ (input : List Char) ev hd (f2 : Nat),
    input.length < f1 → input.length < f2 →
    readSSEEventLoop f1 input ev hd = readSSEEventLoop f2 input ev hd := by
  intro f1
  induction f1 with
  | zero => intro input ev hd f2 h1; omega
  | succ f ih =>
    intro input ev hd f2 h1 h2
    cases f2 with
    | zero => omega
    | succ g =>
      rcases hrl : readLine input with ⟨raw, rest, eof⟩
      have hshrink := readLine_shrinks input
      rw [hrl] at hshrink
      simp only [readSSEEventLoop, hrl]
      cases eof with
      | true => rfl
      | false =>
        simp only at hshrink
        rcases hshrink with he | hlen
        · exact Bool.noConfusion he
        · by_cases hc : (⟨trimRightCRLF raw⟩ : String) = "" ∧ hd = true
          · rw [if_pos hc, if_pos hc]
          · rw [if_neg hc, if_neg hc]
            exact ih rest _ _ g (by omega) (by omega)

theorem strMk_cons_ne_empty (c : Char) (l : List Char) : (⟨c :: l⟩ : String) ≠ "" := by
  intro h
  have h' := congrArg String.data h
  exact List.noConfusion h'

/-- The characters of a run of `data:` lines, one payload per line. -/
def sseDataChars (ps : List String) : List Char :=
  (ps.map (fun p => ("data:" ++ p).data ++ ['\n'])).flatten

theorem readSSEEventLoop_succ (f : Nat) (input : List Char) (ev : SSEEvent) (hd : Bool) :
    readSSEEventLoop (f + 1) input ev hd =
      (match readLine input with
       | (raw, rest, eof) =>
         let line : String := ⟨trimRightCRLF raw⟩
         if line = "" ∧ hd then some (ev, rest)
         else
           let st : SSEEvent × Bool :=
             if line = "" then (ev, hd)
             else if goHasPre line ":" then (ev, hd)
             else if goHasPre line "event:" then
               ({ name := goTrim (goDrop line 6), data := ev.data }, true)
             else if goHasPre line "data:" then
               let part := goTrim (goDrop line 5)
               ({ name := ev.name,
                  data := if ev.data = "" then part else ev.data ++ "\n" ++ part }, true)
             else (ev, hd)
           if eof then (if st.2 then some (st.1, rest) else none)
           else readSSEEventLoop f rest st.1 st.2) := rfl

theorem sse_step_comment (c : String) (hnl : '\n' ∉ c.data) (hcr : '\r' ∉ c.data)
    (s : List Char) (ev : SSEEvent) (hd : Bool) (fuel : Nat)
    (hf : ((":" ++ c).data ++ '\n' :: s).length < fuel) :
    readSSEEventLoop fuel ((":" ++ c).data ++ '\n' :: s) ev hd =
      readSSEEventLoop (s.length + 1) s ev hd := by
  have hdata : (":" ++ c).data = ':' :: c.data := by
    rw [String.data_append]
    rfl
  cases fuel with
  | zero => omega
  | succ f =>
    have hl : '\n' ∉ (":" ++ c).data := by
      rw [hdata]
      intro hm
      rcases List.mem_cons.1 hm with h | h
      · exact absurd h.symm (by decide)
      · exact hnl h
    have hrl := readLine_append_line ((":" ++ c).data) hl s
    have htr : trimRightCRLF ((":" ++ c).data) = (":" ++ c).data := by
      apply trimRightCRLF_stable_of_no_crlf
      intro x hx
      rw [hdata] at hx
      rcases List.mem_cons.1 hx with rfl | hx'
      · exact ⟨by decide, by decide⟩
      · exact ⟨fun h => hcr (h ▸ hx'), fun h => hnl (h ▸ hx')⟩
    have hne : (⟨':' :: c.data⟩ : String) ≠ "" := strMk_cons_ne_empty ':' c.data
    have hpre : goHasPre ⟨':' :: c.data⟩ ":" = true := by
      simp [goHasPre, List.isPrefixOf]
    conv_lhs => simp only [readSSEEventLoop]
    rw [hrl]
    dsimp only
    rw [trimRightCRLF_append_newline, htr, hdata]
    simp only [hne, hpre, Bool.false_eq_true, false_and, if_false, if_true,
      ite_false, ite_true]
    have hslen : s.length < f := by
      rw [List.length_append, hdata] at hf
      simp only [List.length_cons] at hf
      omega
    exact readSSEEventLoop_mono f s ev hd (s.length + 1) hslen (Nat.lt_succ_self _)

theorem sse_step_event (n : String) (hnl : '\n' ∉ n.data) (hcr : '\r' ∉ n.data)
    (s : List Char) (ev : SSEEvent) (hd : Bool) (fuel : Nat)
    (hf : (("event:" ++ n).data ++ '\n' :: s).length < fuel) :
    readSSEEventLoop fuel (("event:" ++ n).data ++ '\n' :: s) ev hd =
      readSSEEventLoop (s.length + 1) s ⟨goTrim n, ev.data⟩ true := by
  have hdata : ("event:" ++ n).data = 'e' :: 'v' :: 'e' :: 'n' :: 't' :: ':' :: n.data := by
    rw [String.data_append]
    rfl
  cases fuel with
  | zero => omega
  | succ f =>
    have hl : '\n' ∉ ("event:" ++ n).data := by
      rw [hdata]
      intro hm
      simp only [List.mem_cons] at hm
      rcases hm with h | h | h | h | h | h | h
      · exact absurd h.symm (by decide)
      · exact absurd h.symm (by decide)
      · exact absurd h.symm (by decide)
      · exact absurd h.symm (by decide)
      · exact absurd h.symm (by decide)
      · exact absurd h.symm (by decide)
      · exact hnl h
    have hrl := readLine_append_line (("event:" ++ n).data) hl s
    have htr : trimRightCRLF (("event:" ++ n).data) = ("event:" ++ n).data := by
      apply trimRightCRLF_stable_of_no_crlf
      intro x hx
      rw [hdata] at hx
      simp only [List.mem_cons] at hx
      rcases hx with rfl | rfl | rfl | rfl | rfl | rfl | hx'
      · exact ⟨by decide, by decide⟩
      · exact ⟨by decide, by decide⟩
      · exact ⟨by decide, by decide⟩
      · exact ⟨by decide, by decide⟩
      · exact ⟨by decide, by decide⟩
      · exact ⟨by decide, by decide⟩
      · exact ⟨fun h => hcr (h ▸ hx'), fun h => hnl (h ▸ hx')⟩
    have hne : (⟨'e' :: 'v' :: 'e' :: 'n' :: 't' :: ':' :: n.data⟩ : String) ≠ "" :=
      strMk_cons_ne_empty _ _
    have hpre1 : goHasPre ⟨'e' :: 'v' :: 'e' :: 'n' :: 't' :: ':' :: n.data⟩ ":" = false := by
      simp [goHasPre, List.isPrefixOf]
    have hpre2 : goHasPre ⟨'e' :: 'v' :: 'e' :: 'n' :: 't' :: ':' :: n.data⟩ "event:" = true := by
      simp [goHasPre, List.isPrefixOf]
    have hdrop : goDrop ⟨'e' :: 'v' :: 'e' :: 'n' :: 't' :: ':' :: n.data⟩ 6 = n := by
      simp [goDrop]
    conv_lhs => simp only [readSSEEventLoop]
    rw [hrl]
    dsimp only
    rw [trimRightCRLF_append_newline, htr, hdata]
    simp only [hne, hpre1, hpre2, hdrop, Bool.false_eq_true, false_and, if_false,
      if_true, ite_false, ite_true]
    have hslen : s.length < f := by
      rw [List.length_append, hdata] at hf
      simp only [List.length_cons] at hf
      omega
    exact readSSEEventLoop_mono f s ⟨goTrim n, ev.data⟩ true (s.length + 1) hslen
      (Nat.lt_succ_self _)

theorem sse_step_data (p : String) (hnl : '\n' ∉ p.data) (hcr : '\r' ∉ p.data)
    (htrim : goTrim p = p)
    (s : List Char) (ev : SSEEvent) (hd : Bool) (fuel : Nat)
    (hf : (("data:" ++ p).data ++ '\n' :: s).length < fuel) :
    readSSEEventLoop fuel (("data:" ++ p).data ++ '\n' :: s) ev hd =
      readSSEEventLoop (s.length + 1) s
        ⟨ev.name, if ev.data = "" then p else ev.data ++ "\n" ++ p⟩ true := by
  have hdata : ("data:" ++ p).data = 'd' :: 'a' :: 't' :: 'a' :: ':' :: p.data := by
    rw [String.data_append]
    rfl
  cases fuel with
  | zero => omega
  | succ f =>
    have hl : '\n' ∉ ("data:" ++ p).data := by
      rw [hdata]
      intro hm
      simp only [List.mem_cons] at hm
      rcases hm with h | h | h | h | h | h
      · exact absurd h.symm (by decide)
      · exact absurd h.symm (by decide)
      · exact absurd h.symm (by decide)
      · exact absurd h.symm (by decide)
      · exact absurd h.symm (by decide)
      · exact hnl h
    have hrl := readLine_append_line (("data:" ++ p).data) hl s
    have htr : trimRightCRLF (("data:" ++ p).data) = ("data:" ++ p).data := by
      apply trimRightCRLF_stable_of_no_crlf
      intro x hx
      rw [hdata] at hx
      simp only [List.mem_cons] at hx
      rcases hx with rfl | rfl | rfl | rfl | rfl | hx'
      · exact ⟨by decide, by decide⟩
      · exact ⟨by decide, by decide⟩
      · exact ⟨by decide, by decide⟩
      · exact ⟨by decide, by decide⟩
      · exact ⟨by decide, by decide⟩
      · exact ⟨fun h => hcr (h ▸ hx'), fun h => hnl (h ▸ hx')⟩
    have hne : (⟨'d' :: 'a' :: 't' :: 'a' :: ':' :: p.data⟩ : String) ≠ "" :=
      strMk_cons_ne_empty _ _
    have hpre1 : goHasPre ⟨'d' :: 'a' :: 't' :: 'a' :: ':' :: p.data⟩ ":" = false := by
      simp [goHasPre, List.isPrefixOf]
    have hpre2 : goHasPre ⟨'d' :: 'a' :: 't' :: 'a' :: ':' :: p.data⟩ "event:" = false := by
      simp [goHasPre, List.isPrefixOf]
    have hpre3 : goHasPre ⟨'d' :: 'a' :: 't' :: 'a' :: ':' :: p.data⟩ "data:" = true := by
      simp [goHasPre, List.isPrefixOf]
    have hdrop : goDrop ⟨'d' :: 'a' :: 't' :: 'a' :: ':' :: p.data⟩ 5 = p := by
      simp [goDrop]
    conv_lhs => simp only [readSSEEventLoop]
    rw [hrl]
    dsimp only
    rw [trimRightCRLF_append_newline, htr, hdata]
    simp only [hne, hpre1, hpre2, hpre3, hdrop, htrim, Bool.false_eq_true,
      false_and, if_false, if_true, ite_false, ite_true]
    have hslen : s.length < f := by
      rw [List.length_append, hdata] at hf
      simp only [List.length_cons] at hf
      omega
    exact readSSEEventLoop_mono f s _ true (s.length + 1) hslen (Nat.lt_succ_self _)

/-- A blank line with an event in progress emits the event (blank-line
delimiting). -/
theorem sse_step_blank_emit (s : List Char) (ev : SSEEvent) (fuel : Nat) :
    readSSEEventLoop (fuel + 1) ('\n' :: s) ev true = some (ev, s) := by
  have hrl : readLine ('\n' :: s) = (['\n'], s, false) := by
    simp [readLine]
  simp only [readSSEEventLoop, hrl]
  rw [if_pos ⟨rfl, trivial⟩]

/-- End of input with an in-progress event emits it once; otherwise the
loop signals stream end. -/
theorem sse_step_eof (ev : SSEEvent) (hd : Bool) (fuel : Nat) :
    readSSEEventLoop (fuel + 1) [] ev hd =
      (if hd = true then some (ev, []) else none) := by
  have hrl : readLine ([] : List Char) = ([], [], true) := rfl
  simp only [readSSEEventLoop, hrl]
  by_cases h : hd = true
  · rw [if_pos ⟨rfl, h⟩, if_pos h]
  · rw [if_neg (fun hx => h hx.2), if_neg h]
    have : (⟨trimRightCRLF []⟩ : String) = "" := rfl
    rw [if_pos this]
    have hb : hd = false := by
      cases hd
      · rfl
      · exact absurd rfl h
    rw [hb]
    rfl

/-- The accumulated data payload after a run of `data:` lines. -/
def foldData (d : String) (ps : List String) : String :=
  ps.foldl (fun d p => if d = "" then p else d ++ "\n" ++ p) d

theorem sse_data_lines (ps : List String)
    (hps : ∀ p ∈ ps, p ≠ "" ∧ '\n' ∉ p.data ∧ '\r' ∉ p.data ∧ goTrim p = p) :
    ∀ (s : List Char) (ev : SSEEvent) (hd : Bool) (fuel : Nat),
      (sseDataChars ps ++ s).length < fuel →
      readSSEEventLoop fuel (sseDataChars ps ++ s) ev hd =
        readSSEEventLoop (s.length + 1) s ⟨ev.name, foldData ev.data ps⟩
          (hd || !ps.isEmpty) := by
  induction ps with
  | nil =>
    intro s ev hd fuel hf
    simp only [sseDataChars, List.map_nil, List.flatten_nil, List.nil_append] at hf ⊢
    rw [readSSEEventLoop_mono fuel s ev hd (s.length + 1) hf (Nat.lt_succ_self _)]
    simp [foldData]
  | cons p ps ih =>
    intro s ev hd fuel hf
    have hp := hps p (List.mem_cons_self p ps)
    have hrest : ∀ q ∈ ps, q ≠ "" ∧ '\n' ∉ q.data ∧ '\r' ∉ q.data ∧ goTrim q = q :=
      fun q hq => hps q (List.mem_cons_of_mem p hq)
    have hshape : sseDataChars (p :: ps) ++ s =
        ("data:" ++ p).data ++ '\n' :: (sseDataChars ps ++ s) := by
      simp [sseDataChars, List.append_assoc]
    rw [hshape] at hf ⊢
    rw [sse_step_data p hp.2.1 hp.2.2.1 hp.2.2.2 _ ev hd fuel hf]
    rw [ih hrest s ⟨ev.name, if ev.data = "" then p else ev.data ++ "\n" ++ p⟩ true
      ((sseDataChars ps ++ s).length + 1) (Nat.lt_succ_self _)]
    simp [foldData]

theorem foldData_eq_goJoin (p : String) (ps : List String) (hp : p ≠ "") :
    foldData "" (p :: ps) = goJoin (p :: ps) "\n" := by
  simp only [foldData, goJoin, List.foldl_cons, if_pos rfl]
  suffices h : ∀ (qs : List String) (acc : String), acc ≠ "" →
      qs.foldl (fun d q => if d = "" then q else d ++ "\n" ++ q) acc =
      qs.foldl (fun a q => a ++ "\n" ++ q) acc by
    exact h ps p hp
  intro qs
  induction qs with
  | nil => intro acc _; rfl
  | cons q rest ih2 =>
    intro acc hacc
    simp only [List.foldl_cons, if_neg hacc]
    apply ih2
    intro he
    have hd := congrArg String.data he
    rw [String.data_append, String.data_append] at hd
    rcases List.append_eq_nil.mp hd with ⟨hd1, hd2⟩
    rcases List.append_eq_nil.mp hd1 with ⟨-, hd3⟩
    exact List.noConfusion hd3

/-- C6: server-sent-event parsing — events are delimited by a blank line,
an `event:` line sets the event name, multiple `data:` lines are joined
with newline into a single payload, `:`-prefixed comment/heartbeat lines
contribute nothing at any point of the stream, end of input with an
in-progress event emits it once, and end of input with no in-progress
event signals stream end. -/
theorem readSSEEvent_spec :
    (∀ (n : String) (ps : List String) (rest : List Char),
      '\n' ∉ n.data → '\r' ∉ n.data → ps ≠ [] →
      (∀ p ∈ ps, p ≠ "" ∧ '\n' ∉ p.data ∧ '\r' ∉ p.data ∧ goTrim p = p) →
      readSSEEvent (("event:" ++ n).data ++ '\n' :: (sseDataChars ps ++ '\n' :: rest)) =
        some (⟨goTrim n, goJoin ps "\n"⟩, rest)) ∧
    (∀ (c : String) (s : List Char) (ev : SSEEvent) (hd : Bool) (fuel : Nat),
      '\n' ∉ c.data → '\r' ∉ c.data →
      ((":" ++ c).data ++ '\n' :: s).length < fuel →
      readSSEEventLoop fuel ((":" ++ c).data ++ '\n' :: s) ev hd =
        readSSEEventLoop (s.length + 1) s ev hd) ∧
    (∀ (s : List Char) (ev : SSEEvent) (fuel : Nat),
      readSSEEventLoop (fuel + 1) ('\n' :: s) ev true = some (ev, s)) ∧
    (∀ p : String, p ≠ "" → '\n' ∉ p.data → '\r' ∉ p.data → goTrim p = p →
      readSSEEvent (("data:" ++ p).data) = some (⟨"", p⟩, [])) ∧
    readSSEEvent [] = none := by
  refine ⟨?_, ?_, sse_step_blank_emit, ?_, rfl⟩
  · intro n ps rest hnl hcr hne hps
    unfold readSSEEvent
    rw [sse_step_event n hnl hcr _ _ _ _ (Nat.lt_succ_self _)]
    rw [sse_data_lines ps hps ('\n' :: rest) ⟨goTrim n, ""⟩ true
      ((sseDataChars ps ++ '\n' :: rest).length + 1) (Nat.lt_succ_self _)]
    rcases ps with _ | ⟨p, ps'⟩
    · exact absurd rfl hne
    · have hp := (hps p (List.mem_cons_self p ps')).1
      rw [foldData_eq_goJoin p ps' hp]
      have hlen : ('\n' :: rest).length + 1 = (rest.length + 1) + 1 := by
        simp
      rw [hlen]
      rw [show (true || !(p :: ps').isEmpty) = true from rfl]
      exact sse_step_blank_emit rest ⟨goTrim n, goJoin (p :: ps') "\n"⟩ (rest.length + 1)
  · intro c s ev hd fuel hnl hcr hf
    exact sse_step_comment c hnl hcr s ev hd fuel hf
  · intro p hpne hnl hcr htrim
    have hdata : ("data:" ++ p).data = 'd' :: 'a' :: 't' :: 'a' :: ':' :: p.data := by
      rw [String.data_append]
      rfl
    have hl : '\n' ∉ ("data:" ++ p).data := by
      rw [hdata]
      intro hm
      simp only [List.mem_cons] at hm
      rcases hm with h | h | h | h | h | h
      · exact absurd h.symm (by decide)
      · exact absurd h.symm (by decide)
      · exact absurd h.symm (by decide)
      · exact absurd h.symm (by decide)
      · exact absurd h.symm (by decide)
      · exact hnl h
    have hrl := readLine_eof (("data:" ++ p).data) hl
    have htr : trimRightCRLF (("data:" ++ p).data) = ("data:" ++ p).data := by
      apply trimRightCRLF_stable_of_no_crlf
      intro x hx
      rw [hdata] at hx
      simp only [List.mem_cons] at hx
      rcases hx with rfl | rfl | rfl | rfl | rfl | hx'
      · exact ⟨by decide, by decide⟩
      · exact ⟨by decide, by decide⟩
      · exact ⟨by decide, by decide⟩
      · exact ⟨by decide, by decide⟩
      · exact ⟨by decide, by decide⟩
      · exact ⟨fun h => hcr (h ▸ hx'), fun h => hnl (h ▸ hx')⟩
    have hne : (⟨'d' :: 'a' :: 't' :: 'a' :: ':' :: p.data⟩ : String) ≠ "" :=
      strMk_cons_ne_empty _ _
    have hpre1 : goHasPre ⟨'d' :: 'a' :: 't' :: 'a' :: ':' :: p.data⟩ ":" = false := by
      simp [goHasPre, List.isPrefixOf]
    have hpre2 : goHasPre ⟨'d' :: 'a' :: 't' :: 'a' :: ':' :: p.data⟩ "event:" = false := by
      simp [goHasPre, List.isPrefixOf]
    have hpre3 : goHasPre ⟨'d' :: 'a' :: 't' :: 'a' :: ':' :: p.data⟩ "data:" = true := by
      simp [goHasPre, List.isPrefixOf]
    have hdrop : goDrop ⟨'d' :: 'a' :: 't' :: 'a' :: ':' :: p.data⟩ 5 = p := by
      simp [goDrop]
    unfold readSSEEvent
    rw [readSSEEventLoop_succ]
    rw [hrl]
    dsimp only
    rw [htr, hdata]
    simp only [hne, hpre1, hpre2, hpre3, hdrop, htrim, Bool.false_eq_true,
      false_and, if_false, if_true, ite_false, ite_true]

/-- Witness for C6 at a concrete event with two data lines, a concrete
heartbeat skip, and a concrete end-of-input flush. -/
theorem readSSEEvent_spec_witness :
    readSSEEvent (("event:" ++ "endpoint").data ++ '\n' ::
        (sseDataChars ["a", "b"] ++ '\n' :: "rest".data)) =
      some (⟨"endpoint", "a\nb"⟩, "rest".data) ∧
    readSSEEventLoop 20 ((":" ++ "hb").data ++ '\n' :: "data: x\n\n".data) ⟨"", ""⟩ false =
      readSSEEventLoop ("data: x\n\n".data.length + 1) "data: x\n\n".data ⟨"", ""⟩ false ∧
    readSSEEvent (("data:" ++ "tail").data) = some (⟨"", "tail"⟩, []) := by
  refine ⟨?_, ?_, ?_⟩
  · exact (readSSEEvent_spec.1 "endpoint" ["a", "b"] "rest".data (by decide) (by decide)
      (by decide) (by decide)).trans (by decide)
  · exact readSSEEvent_spec.2.1 "hb" "data: x\n\n".data ⟨"", ""⟩ false 20
      (by decide) (by decide) (by decide)
  · exact readSSEEvent_spec.2.2.2.1 "tail" (by decide) (by decide) (by decide) (by decide)

/-! ### C2: session retry discipline of callRPC -/

lemma find_filter_ne (l : List (String × String)) (i : String) :
    (l.filter (fun kv => kv.1 ≠ i)).find? (fun kv => kv.1 = i) = none := by
  rw [List.find?_eq_none]
  intro x hx
  have hne := List.of_mem_filter hx
  simp only [decide_not, Bool.not_eq_true', decide_eq_false_iff_not] at hne
  simp only [decide_eq_true_eq]
  exact hne

lemma getSession_clearSession (st : ClientState) (i : String) :
    getSession (clearSession st i) i = "" := by
  unfold getSession clearSession
  dsimp only
  rw [find_filter_ne]

lemma updateSession_preserves (st : ClientState) (i : String) (h : Option String) :
    (updateSessionFromHeaders st i h).trace = st.trace ∧
    (updateSessionFromHeaders st i h).calls = st.calls := by
  unfold updateSessionFromHeaders setSession
  dsimp only
  split <;> exact ⟨rfl, rfl⟩

lemma ensureSession_cached (oracle : Nat → PostOut) (svc : Service) (st : ClientState)
    (h : getSession st svc.id ≠ "") :
    ensureSession oracle svc st = (.ok (getSession st svc.id), st) := by
  unfold ensureSession
  dsimp only
  rw [if_pos h]

lemma ensureSession_fresh_initfail (oracle : Nat → PostOut) (svc : Service)
    (st : ClientState) (e : String)
    (h0 : getSession st svc.id = "")
    (he : (oracle st.calls).result = .error e) :
    ensureSession oracle svc st =
      (.error ("initialize mcp service \"" ++ svc.id ++ "\" failed: " ++ e),
       { st with calls := st.calls + 1,
                 trace := st.trace ++ [⟨"initialize", "", true⟩] }) := by
  unfold ensureSession postRPCStep
  dsimp only
  rw [if_neg (fun hc => hc h0)]
  rw [he]

lemma ensureSession_fresh_ok (oracle : Nat → PostOut) (svc : Service)
    (st : ClientState) (ires sid2 nres : String)
    (h0 : getSession st svc.id = "")
    (hi : (oracle st.calls).result = .ok ires)
    (hsid : goTrim ((oracle st.calls).sessionHeader.getD "") = sid2)
    (hn : (oracle (st.calls + 1)).result = .ok nres) :
    ensureSession oracle svc st =
      (.ok sid2,
       { sessions := if sid2 = "" then st.sessions
                     else (svc.id, sid2) :: st.sessions.filter (fun kv => kv.1 ≠ svc.id),
         calls := st.calls + 2,
         trace := st.trace ++ [⟨"initialize", "", true⟩,
                               ⟨"notifications/initialized", sid2, false⟩] }) := by
  unfold ensureSession postRPCStep
  dsimp only
  rw [if_neg (fun hc => hc h0)]
  rw [hi]
  dsimp only
  rw [hsid]
  by_cases h2 : sid2 = ""
  · rw [if_neg (fun hc => hc h2), if_pos h2]
    dsimp only
    rw [hn]
    simp [List.append_assoc]
  · rw [if_pos h2, if_neg h2]
    unfold setSession
    dsimp only
    rw [hn]
    simp [List.append_assoc]

lemma callRPC_cached_ok (oracle : Nat → PostOut) (so : Except String String)
    (svc : Service) (method : String) (st : ClientState) (sid r : String)
    (htr : normalizeServiceTransport svc.transport ≠ ServiceTransportStdio)
    (hs : getSession st svc.id = sid) (hsne : sid ≠ "")
    (hok : (oracle st.calls).result = .ok r) :
    (callRPC oracle so svc method st).1 = .ok r ∧
    (callRPC oracle so svc method st).2.calls = st.calls + 1 ∧
    (callRPC oracle so svc method st).2.trace = st.trace ++ [⟨method, sid, true⟩] := by
  subst hs
  unfold callRPC
  rw [if_neg htr]
  rw [ensureSession_cached oracle svc st hsne]
  unfold postRPCStep
  dsimp only
  rw [hok]
  dsimp only
  refine ⟨rfl, ?_, ?_⟩
  · rw [(updateSession_preserves _ _ _).2]
  · rw [(updateSession_preserves _ _ _).1]

lemma callRPC_reinit_fail (oracle : Nat → PostOut) (so : Except String String)
    (svc : Service) (method : String) (st : ClientState) (sid e e2 : String)
    (htr : normalizeServiceTransport svc.transport ≠ ServiceTransportStdio)
    (hs : getSession st svc.id = sid) (hsne : sid ≠ "")
    (he : (oracle st.calls).result = .error e)
    (he2 : (oracle (st.calls + 1)).result = .error e2) :
    callRPC oracle so svc method st =
      (.error ("rpc failed: " ++ e ++ "; reinitialize failed: " ++
        ("initialize mcp service \"" ++ svc.id ++ "\" failed: " ++ e2)),
       { sessions := st.sessions.filter (fun kv => kv.1 ≠ svc.id),
         calls := st.calls + 2,
         trace := st.trace ++ [⟨method, sid, true⟩, ⟨"initialize", "", true⟩] }) := by
  subst hs
  unfold callRPC
  rw [if_neg htr]
  rw [ensureSession_cached oracle svc st hsne]
  unfold postRPCStep
  dsimp only
  rw [he]
  dsimp only
  rw [if_neg hsne]
  rw [ensureSession_fresh_initfail oracle svc
      (clearSession { st with calls := st.calls + 1, trace := st.trace ++ [⟨method, getSession st svc.id, true⟩] } svc.id)
      e2 (getSession_clearSession _ _) he2]
  simp [clearSession, List.append_assoc]

lemma callRPC_retry_ok (oracle : Nat → PostOut) (so : Except String String)
    (svc : Service) (method : String) (st : ClientState)
    (sid e ires sid2 nres r2 : String)
    (htr : normalizeServiceTransport svc.transport ≠ ServiceTransportStdio)
    (hs : getSession st svc.id = sid) (hsne : sid ≠ "")
    (he : (oracle st.calls).result = .error e)
    (hi : (oracle (st.calls + 1)).result = .ok ires)
    (hsid : goTrim ((oracle (st.calls + 1)).sessionHeader.getD "") = sid2)
    (hn : (oracle (st.calls + 2)).result = .ok nres)
    (hr : (oracle (st.calls + 3)).result = .ok r2) :
    (callRPC oracle so svc method st).1 = .ok r2 ∧
    (callRPC oracle so svc method st).2.calls = st.calls + 4 ∧
    (callRPC oracle so svc method st).2.trace =
      st.trace ++ [⟨method, sid, true⟩, ⟨"initialize", "", true⟩,
                   ⟨"notifications/initialized", sid2, false⟩, ⟨method, sid2, true⟩] := by
  subst hs
  unfold callRPC
  rw [if_neg htr]
  rw [ensureSession_cached oracle svc st hsne]
  unfold postRPCStep
  dsimp only
  rw [he]
  dsimp only
  rw [if_neg hsne]
  rw [ensureSession_fresh_ok oracle svc
      (clearSession { st with calls := st.calls + 1, trace := st.trace ++ [⟨method, getSession st svc.id, true⟩] } svc.id)
      ires sid2 nres (getSession_clearSession _ _) hi hsid hn]
  simp only [clearSession]
  have hr' : (oracle (st.calls + 1 + 2)).result = .ok r2 := hr
  rw [hr']
  dsimp only
  refine ⟨rfl, ?_, ?_⟩
  · rw [(updateSession_preserves _ _ _).2]
  · rw [(updateSession_preserves _ _ _).1]
    simp [List.append_assoc]

lemma callRPC_retry_fail (oracle : Nat → PostOut) (so : Except String String)
    (svc : Service) (method : String) (st : ClientState)
    (sid e ires sid2 nres e3 : String)
    (htr : normalizeServiceTransport svc.transport ≠ ServiceTransportStdio)
    (hs : getSession st svc.id = sid) (hsne : sid ≠ "")
    (he : (oracle st.calls).result = .error e)
    (hi : (oracle (st.calls + 1)).result = .ok ires)
    (hsid : goTrim ((oracle (st.calls + 1)).sessionHeader.getD "") = sid2)
    (hn : (oracle (st.calls + 2)).result = .ok nres)
    (hr : (oracle (st.calls + 3)).result = .error e3) :
    (callRPC oracle so svc method st).1 =
      .error ("rpc failed after session retry: " ++ e3) ∧
    (callRPC oracle so svc method st).2.calls = st.calls + 4 ∧
    (callRPC oracle so svc method st).2.trace =
      st.trace ++ [⟨method, sid, true⟩, ⟨"initialize", "", true⟩,
                   ⟨"notifications/initialized", sid2, false⟩, ⟨method, sid2, true⟩] := by
  subst hs
  unfold callRPC
  rw [if_neg htr]
  rw [ensureSession_cached oracle svc st hsne]
  unfold postRPCStep
  dsimp only
  rw [he]
  dsimp only
  rw [if_neg hsne]
  rw [ensureSession_fresh_ok oracle svc
      (clearSession { st with calls := st.calls + 1, trace := st.trace ++ [⟨method, getSession st svc.id, true⟩] } svc.id)
      ires sid2 nres (getSession_clearSession _ _) hi hsid hn]
  simp only [clearSession]
  have hr' : (oracle (st.calls + 1 + 2)).result = .error e3 := hr
  rw [hr']
  dsimp only
  refine ⟨rfl, rfl, ?_⟩
  simp [List.append_assoc]

lemma ensureSession_fresh_ok_blank (oracle : Nat → PostOut) (svc : Service)
    (st : ClientState) (ires nres : String)
    (h0 : getSession st svc.id = "")
    (hi : (oracle st.calls).result = .ok ires)
    (hsid : goTrim ((oracle st.calls).sessionHeader.getD "") = "")
    (hn : (oracle (st.calls + 1)).result = .ok nres) :
    ensureSession oracle svc st =
      (.ok "",
       { st with calls := st.calls + 2,
                 trace := st.trace ++ [⟨"initialize", "", true⟩,
                                       ⟨"notifications/initialized", "", false⟩] }) := by
  rw [ensureSession_fresh_ok oracle svc st ires "" nres h0 hi hsid hn]
  simp

lemma callRPC_nosession_fail (oracle : Nat → PostOut) (so : Except String String)
    (svc : Service) (method : String) (st : ClientState) (ires nres e : String)
    (htr : normalizeServiceTransport svc.transport ≠ ServiceTransportStdio)
    (h0 : getSession st svc.id = "")
    (hi : (oracle st.calls).result = .ok ires)
    (hsid : goTrim ((oracle st.calls).sessionHeader.getD "") = "")
    (hn : (oracle (st.calls + 1)).result = .ok nres)
    (he : (oracle (st.calls + 2)).result = .error e) :
    callRPC oracle so svc method st =
      (.error e,
       { sessions := st.sessions,
         calls := st.calls + 3,
         trace := st.trace ++ [⟨"initialize", "", true⟩,
                               ⟨"notifications/initialized", "", false⟩,
                               ⟨method, "", true⟩] }) := by
  unfold callRPC
  rw [if_neg htr]
  rw [ensureSession_fresh_ok_blank oracle svc st ires nres h0 hi hsid hn]
  unfold postRPCStep
  dsimp only
  rw [he]
  dsimp only
  rw [if_pos rfl]
  simp [List.append_assoc]

def wOracle : Nat → PostOut
  | 0 => ⟨.error "boom", none⟩
  | 1 => ⟨.ok "initres", some " S2 "⟩
  | 2 => ⟨.ok "", none⟩
  | _ => ⟨.ok "R2", none⟩

/-- C2: over the direct-request and event-stream transports, `callRPC`
reuses the cached session and returns a first success directly; after a
first failure with a non-empty session id it clears the session and
performs exactly one reinitialize-plus-retry: a failed reinitialize yields
the combined error naming both failures with no retry request, a
successful retry returns its result, a failed retry returns the
retry error with no third attempt (exactly two posts of the method), and
a failure with no session id attached returns the original error with no
retry at all. -/
theorem callRPC_session_retry (oracle : Nat → PostOut) (so : Except String String)
    (svc : Service) (method : String) (st : ClientState)
    (htr : normalizeServiceTransport svc.transport ≠ ServiceTransportStdio) :
    (∀ sid r, getSession st svc.id = sid → sid ≠ "" →
      (oracle st.calls).result = .ok r →
      (callRPC oracle so svc method st).1 = .ok r ∧
      (callRPC oracle so svc method st).2.calls = st.calls + 1 ∧
      (callRPC oracle so svc method st).2.trace = st.trace ++ [⟨method, sid, true⟩]) ∧
    (∀ sid e e2, getSession st svc.id = sid → sid ≠ "" →
      (oracle st.calls).result = .error e →
      (oracle (st.calls + 1)).result = .error e2 →
      callRPC oracle so svc method st =
        (.error ("rpc failed: " ++ e ++ "; reinitialize failed: " ++
          ("initialize mcp service \"" ++ svc.id ++ "\" failed: " ++ e2)),
         { sessions := st.sessions.filter (fun kv => kv.1 ≠ svc.id),
           calls := st.calls + 2,
           trace := st.trace ++ [⟨method, sid, true⟩, ⟨"initialize", "", true⟩] })) ∧
    (∀ sid e ires sid2 nres r2, getSession st svc.id = sid → sid ≠ "" →
      (oracle st.calls).result = .error e →
      (oracle (st.calls + 1)).result = .ok ires →
      goTrim ((oracle (st.calls + 1)).sessionHeader.getD "") = sid2 →
      (oracle (st.calls + 2)).result = .ok nres →
      (oracle (st.calls + 3)).result = .ok r2 →
      (callRPC oracle so svc method st).1 = .ok r2 ∧
      (callRPC oracle so svc method st).2.calls = st.calls + 4 ∧
      (callRPC oracle so svc method st).2.trace =
        st.trace ++ [⟨method, sid, true⟩, ⟨"initialize", "", true⟩,
                     ⟨"notifications/initialized", sid2, false⟩, ⟨method, sid2, true⟩]) ∧
    (∀ sid e ires sid2 nres e3, getSession st svc.id = sid → sid ≠ "" →
      (oracle st.calls).result = .error e →
      (oracle (st.calls + 1)).result = .ok ires →
      goTrim ((oracle (st.calls + 1)).sessionHeader.getD "") = sid2 →
      (oracle (st.calls + 2)).result = .ok nres →
      (oracle (st.calls + 3)).result = .error e3 →
      (callRPC oracle so svc method st).1 =
        .error ("rpc failed after session retry: " ++ e3) ∧
      (callRPC oracle so svc method st).2.calls = st.calls + 4 ∧
      (callRPC oracle so svc method st).2.trace =
        st.trace ++ [⟨method, sid, true⟩, ⟨"initialize", "", true⟩,
                     ⟨"notifications/initialized", sid2, false⟩, ⟨method, sid2, true⟩]) ∧
    (∀ ires nres e, getSession st svc.id = "" →
      (oracle st.calls).result = .ok ires →
      goTrim ((oracle st.calls).sessionHeader.getD "") = "" →
      (oracle (st.calls + 1)).result = .ok nres →
      (oracle (st.calls + 2)).result = .error e →
      callRPC oracle so svc method st =
        (.error e,
         { sessions := st.sessions,
           calls := st.calls + 3,
           trace := st.trace ++ [⟨"initialize", "", true⟩,
                                 ⟨"notifications/initialized", "", false⟩,
                                 ⟨method, "", true⟩] })) := by
  refine ⟨?_, ?_, ?_, ?_, ?_⟩
  · intro sid r hs hsne hok
    exact callRPC_cached_ok oracle so svc method st sid r htr hs hsne hok
  · intro sid e e2 hs hsne he he2
    exact callRPC_reinit_fail oracle so svc method st sid e e2 htr hs hsne he he2
  · intro sid e ires sid2 nres r2 hs hsne he hi hsid hn hr
    exact callRPC_retry_ok oracle so svc method st sid e ires sid2 nres r2 htr hs hsne he hi hsid hn hr
  · intro sid e ires sid2 nres e3 hs hsne he hi hsid hn hr
    exact callRPC_retry_fail oracle so svc method st sid e ires sid2 nres e3 htr hs hsne he hi hsid hn hr
  · intro ires nres e h0 hi hsid hn he
    exact callRPC_nosession_fail oracle so svc method st ires nres e htr h0 hi hsid hn he

/-- Witness for C2: a concrete oracle whose first post fails, whose
reinitialize handshake succeeds with a fresh session id, and whose retry
succeeds; the call returns the retry result after exactly four posts with
exactly two attempts of the method. -/
theorem callRPC_session_retry_witness :
    (callRPC wOracle (.error "unused") (wService "w" []) "tools/list"
      ⟨[("w", "S1")], 0, []⟩).1 = .ok "R2" ∧
    (callRPC wOracle (.error "unused") (wService "w" []) "tools/list"
      ⟨[("w", "S1")], 0, []⟩).2.calls = 4 ∧
    (callRPC wOracle (.error "unused") (wService "w" []) "tools/list"
      ⟨[("w", "S1")], 0, []⟩).2.trace =
      [⟨"tools/list", "S1", true⟩, ⟨"initialize", "", true⟩,
       ⟨"notifications/initialized", "S2", false⟩, ⟨"tools/list", "S2", true⟩] := by
  have h := (callRPC_session_retry wOracle (.error "unused") (wService "w" [])
      "tools/list" ⟨[("w", "S1")], 0, []⟩ (by decide)).2.2.1
      "S1" "boom" "initres" "S2" "" "R2"
      (by decide) (by decide) rfl rfl (by decide) rfl rfl
  exact ⟨h.1, h.2.1, h.2.2⟩

/-! ### C5: response matching in the wait loops -/

lemma unmarshal_id (fields : List (String × JsonVal)) (idv : JsonVal) (g : GoVal)
    (r : RpcResponse)
    (hl : lookupField fields "id" = some idv)
    (hg : goValOfJson idv = some g)
    (hu : unmarshalRpcResponse (.jObj fields) = some r) : r.id = g := by
  simp only [unmarshalRpcResponse, hl] at hu
  cases idv with
  | jArr l => simp [goValOfJson] at hg
  | jObj l => simp [goValOfJson] at hg
  | jNull =>
    simp only [goValOfJson, Option.some.injEq] at hg
    subst hg
    split at hu
    · rename_i j i e hj hi he
      injection hu with hu
      injection hi with hi
      rw [← hu]
      exact hi.symm
    · exact Option.noConfusion hu
  | jBool b =>
    simp only [goValOfJson, Option.some.injEq] at hg
    subst hg
    split at hu
    · rename_i j i e hj hi he
      injection hu with hu
      injection hi with hi
      rw [← hu]
      exact hi.symm
    · exact Option.noConfusion hu
  | jNum n =>
    simp only [goValOfJson, Option.some.injEq] at hg
    subst hg
    split at hu
    · rename_i j i e hj hi he
      injection hu with hu
      injection hi with hi
      rw [← hu]
      exact hi.symm
    · exact Option.noConfusion hu
  | jStr s =>
    simp only [goValOfJson, Option.some.injEq] at hg
    subst hg
    split at hu
    · rename_i j i e hj hi he
      injection hu with hu
      injection hi with hi
      rw [← hu]
      exact hi.symm
    · exact Option.noConfusion hu

lemma waitSSELoop_sound : ∀ (fuel : Nat) (input : List Char) (expect : GoVal)
    (resp : RpcResponse), expect ≠ GoVal.vnil →
    waitSSELoop fuel input expect = .ok resp → sameRPCID expect resp.id = true := by
  intro fuel
  induction fuel with
  | zero =>
    intro input expect resp hne h
    simp [waitSSELoop] at h
  | succ n ih =>
    intro input expect resp hne h
    simp only [waitSSELoop] at h
    cases hev : readSSEEvent input with
    | none => rw [hev] at h; exact Except.noConfusion h
    | some pr =>
      obtain ⟨ev, rest⟩ := pr
      rw [hev] at h
      dsimp only at h
      by_cases hd : goTrim ev.data = ""
      · rw [if_pos hd] at h
        exact ih rest expect resp hne h
      · rw [if_neg hd] at h
        cases hdec : decodeRpcFromString (goTrim ev.data) with
        | none =>
          rw [hdec] at h
          exact ih rest expect resp hne h
        | some r =>
          rw [hdec] at h
          dsimp only at h
          by_cases hskip : (expect ≠ GoVal.vnil ∧ ¬ sameRPCID expect r.id = true)
          · rw [if_pos hskip] at h
            exact ih rest expect resp hne h
          · rw [if_neg hskip] at h
            injection h with h
            subst h
            push_neg at hskip
            exact hskip hne

lemma waitSTDIOLoop_sound : ∀ (fuel : Nat) (input : List Char) (expect : GoVal)
    (resp : RpcResponse), expect ≠ GoVal.vnil →
    waitSTDIOLoop fuel input expect = .ok resp → sameRPCID expect resp.id = true := by
  intro fuel
  induction fuel with
  | zero =>
    intro input expect resp hne h
    simp [waitSTDIOLoop] at h
  | succ n ih =>
    intro input expect resp hne h
    simp only [waitSTDIOLoop] at h
    cases hsw : skipWs input with
    | nil => rw [hsw] at h; exact Except.noConfusion h
    | cons c cs =>
      rw [hsw] at h
      dsimp only at h
      cases hp : parseF (2 * (c :: cs).length + 4) .val (c :: cs) with
      | none => rw [hp] at h; exact Except.noConfusion h
      | some pr =>
        obtain ⟨v, rest⟩ := pr
        rw [hp] at h
        dsimp only at h
        cases v with
        | jObj fields =>
          dsimp only at h
          by_cases hm : stdioSkipMethod fields = true
          · rw [if_pos hm] at h
            exact ih rest expect resp hne h
          · rw [if_neg hm] at h
            cases hid : lookupField fields "id" with
            | none =>
              rw [hid] at h
              exact ih rest expect resp hne h
            | some idv =>
              rw [hid] at h
              dsimp only at h
              cases hg : goValOfJson idv with
              | none => rw [hg] at h; exact Except.noConfusion h
              | some g =>
                rw [hg] at h
                dsimp only at h
                by_cases hskip : (expect ≠ GoVal.vnil ∧ ¬ sameRPCID expect g = true)
                · rw [if_pos hskip] at h
                  exact ih rest expect resp hne h
                · rw [if_neg hskip] at h
                  cases hu : unmarshalRpcResponse (.jObj fields) with
                  | none => rw [hu] at h; exact Except.noConfusion h
                  | some r =>
                    rw [hu] at h
                    injection h with h
                    subst h
                    push_neg at hskip
                    rw [unmarshal_id fields idv g r hid hg hu]
                    exact hskip hne
        | jNull => exact Except.noConfusion h
        | jBool b => exact Except.noConfusion h
        | jNum nn => exact Except.noConfusion h
        | jStr s => exact Except.noConfusion h
        | jArr l => exact Except.noConfusion h

lemma waitSSE_accept (fuel : Nat) (input : List Char) (expect : GoVal)
    (ev : SSEEvent) (rest : List Char) (resp : RpcResponse)
    (hev : readSSEEvent input = some (ev, rest))
    (hd : goTrim ev.data ≠ "")
    (hdec : decodeRpcFromString (goTrim ev.data) = some resp)
    (hid : sameRPCID expect resp.id = true) :
    waitSSELoop (fuel + 1) input expect = .ok resp := by
  simp only [waitSSELoop, hev]
  rw [if_neg hd]
  simp only [hdec]
  rw [if_neg (fun hc => hc.2 hid)]

lemma waitSSE_skip (fuel : Nat) (input : List Char) (expect : GoVal)
    (ev : SSEEvent) (rest : List Char) (resp : RpcResponse)
    (hev : readSSEEvent input = some (ev, rest))
    (hd : goTrim ev.data ≠ "")
    (hdec : decodeRpcFromString (goTrim ev.data) = some resp)
    (hne : expect ≠ GoVal.vnil)
    (hid : sameRPCID expect resp.id = false) :
    waitSSELoop (fuel + 1) input expect = waitSSELoop fuel rest expect := by
  simp only [waitSSELoop, hev]
  rw [if_neg hd]
  simp only [hdec]
  rw [if_pos ⟨hne, fun hc => by rw [hid] at hc; exact Bool.noConfusion hc⟩]

lemma waitSSE_end (fuel : Nat) (input : List Char) (expect : GoVal)
    (h : readSSEEvent input = none) :
    waitSSELoop (fuel + 1) input expect =
      .error "decode rpc response: no rpc message in sse stream" := by
  simp only [waitSSELoop, h]

lemma waitSTDIO_eof (fuel : Nat) (input : List Char) (expect : GoVal)
    (h : skipWs input = []) :
    waitSTDIOLoop (fuel + 1) input expect = .error "decode rpc response: eof" := by
  simp only [waitSTDIOLoop, h]

lemma waitSTDIO_method_skip (fuel : Nat) (input : List Char) (expect : GoVal)
    (fields : List (String × JsonVal)) (rest : List Char)
    (hsw : skipWs input ≠ [])
    (hp : parseF (2 * (skipWs input).length + 4) .val (skipWs input) =
      some (.jObj fields, rest))
    (hm : stdioSkipMethod fields = true) :
    waitSTDIOLoop (fuel + 1) input expect = waitSTDIOLoop fuel rest expect := by
  obtain ⟨c, cs, hcons⟩ := List.exists_cons_of_ne_nil hsw
  rw [hcons] at hp
  simp only [waitSTDIOLoop, hcons, hp]
  rw [if_pos hm]

lemma waitSTDIO_noid_skip (fuel : Nat) (input : List Char) (expect : GoVal)
    (fields : List (String × JsonVal)) (rest : List Char)
    (hsw : skipWs input ≠ [])
    (hp : parseF (2 * (skipWs input).length + 4) .val (skipWs input) =
      some (.jObj fields, rest))
    (hm : stdioSkipMethod fields = false)
    (hid : lookupField fields "id" = none) :
    waitSTDIOLoop (fuel + 1) input expect = waitSTDIOLoop fuel rest expect := by
  obtain ⟨c, cs, hcons⟩ := List.exists_cons_of_ne_nil hsw
  rw [hcons] at hp
  simp only [waitSTDIOLoop, hcons, hp, hm, hid]
  rw [if_neg (by simp [hm])]

lemma waitSTDIO_nomatch_skip (fuel : Nat) (input : List Char) (expect : GoVal)
    (fields : List (String × JsonVal)) (rest : List Char) (idv : JsonVal) (g : GoVal)
    (hsw : skipWs input ≠ [])
    (hp : parseF (2 * (skipWs input).length + 4) .val (skipWs input) =
      some (.jObj fields, rest))
    (hm : stdioSkipMethod fields = false)
    (hid : lookupField fields "id" = some idv)
    (hg : goValOfJson idv = some g)
    (hne : expect ≠ GoVal.vnil)
    (hsame : sameRPCID expect g = false) :
    waitSTDIOLoop (fuel + 1) input expect = waitSTDIOLoop fuel rest expect := by
  obtain ⟨c, cs, hcons⟩ := List.exists_cons_of_ne_nil hsw
  rw [hcons] at hp
  simp only [waitSTDIOLoop, hcons, hp, hid, hg]
  rw [if_neg (by simp [hm])]
  rw [if_pos ⟨hne, fun hc => by rw [hsame] at hc; exact Bool.noConfusion hc⟩]

lemma waitSTDIO_accept (fuel : Nat) (input : List Char) (expect : GoVal)
    (fields : List (String × JsonVal)) (rest : List Char) (idv : JsonVal) (g : GoVal)
    (resp : RpcResponse)
    (hsw : skipWs input ≠ [])
    (hp : parseF (2 * (skipWs input).length + 4) .val (skipWs input) =
      some (.jObj fields, rest))
    (hm : stdioSkipMethod fields = false)
    (hid : lookupField fields "id" = some idv)
    (hg : goValOfJson idv = some g)
    (hsame : sameRPCID expect g = true)
    (hu : unmarshalRpcResponse (.jObj fields) = some resp) :
    waitSTDIOLoop (fuel + 1) input expect = .ok resp := by
  obtain ⟨c, cs, hcons⟩ := List.exists_cons_of_ne_nil hsw
  rw [hcons] at hp
  simp only [waitSTDIOLoop, hcons, hp, hid, hg, hu]
  rw [if_neg (by simp [hm])]
  rw [if_neg (fun hc => hc.2 hsame)]

lemma sameRPCID_int_str (n : Int) : sameRPCID (.vint n) (.vstr (toString n)) = true := by
  simp [sameRPCID, renderGoVal]

/-- C5 (amended): an accepted response's id always string-matches the
outstanding request id (soundness, both transports); on the event stream a
decodable event whose id matches is accepted with no method check, and a
non-matching one is skipped without error; on stdio an envelope with a
non-blank method string is skipped even when its id matches, an envelope
without an id or with a non-matching id is skipped without error, and a
matching envelope is accepted; stream end before a match is a terminal
error on both transports; integer and string renderings of the same id
compare equal. -/
theorem waitRPCResponse_spec :
    (∀ (fuel : Nat) (input : List Char) (expect : GoVal) (resp : RpcResponse),
        expect ≠ GoVal.vnil → waitSSELoop fuel input expect = .ok resp →
        sameRPCID expect resp.id = true) ∧
    (∀ (fuel : Nat) (input : List Char) (expect : GoVal) (resp : RpcResponse),
        expect ≠ GoVal.vnil → waitSTDIOLoop fuel input expect = .ok resp →
        sameRPCID expect resp.id = true) ∧
    (∀ (fuel : Nat) (input : List Char) (expect : GoVal) (ev : SSEEvent)
        (rest : List Char) (resp : RpcResponse),
        readSSEEvent input = some (ev, rest) → goTrim ev.data ≠ "" →
        decodeRpcFromString (goTrim ev.data) = some resp →
        sameRPCID expect resp.id = true →
        waitSSELoop (fuel + 1) input expect = .ok resp) ∧
    (∀ (fuel : Nat) (input : List Char) (expect : GoVal) (ev : SSEEvent)
        (rest : List Char) (resp : RpcResponse),
        readSSEEvent input = some (ev, rest) → goTrim ev.data ≠ "" →
        decodeRpcFromString (goTrim ev.data) = some resp →
        expect ≠ GoVal.vnil → sameRPCID expect resp.id = false →
        waitSSELoop (fuel + 1) input expect = waitSSELoop fuel rest expect) ∧
    (∀ (fuel : Nat) (input : List Char) (expect : GoVal),
        readSSEEvent input = none →
        waitSSELoop (fuel + 1) input expect =
          .error "decode rpc response: no rpc message in sse stream") ∧
    (∀ (fuel : Nat) (input : List Char) (expect : GoVal)
        (fields : List (String × JsonVal)) (rest : List Char),
        skipWs input ≠ [] →
        parseF (2 * (skipWs input).length + 4) .val (skipWs input) =
          some (.jObj fields, rest) →
        stdioSkipMethod fields = true →
        waitSTDIOLoop (fuel + 1) input expect = waitSTDIOLoop fuel rest expect) ∧
    (∀ (fuel : Nat) (input : List Char) (expect : GoVal)
        (fields : List (String × JsonVal)) (rest : List Char),
        skipWs input ≠ [] →
        parseF (2 * (skipWs input).length + 4) .val (skipWs input) =
          some (.jObj fields, rest) →
        stdioSkipMethod fields = false → lookupField fields "id" = none →
        waitSTDIOLoop (fuel + 1) input expect = waitSTDIOLoop fuel rest expect) ∧
    (∀ (fuel : Nat) (input : List Char) (expect : GoVal)
        (fields : List (String × JsonVal)) (rest : List Char) (idv : JsonVal)
        (g : GoVal),
        skipWs input ≠ [] →
        parseF (2 * (skipWs input).length + 4) .val (skipWs input) =
          some (.jObj fields, rest) →
        stdioSkipMethod fields = false → lookupField fields "id" = some idv →
        goValOfJson idv = some g → expect ≠ GoVal.vnil →
        sameRPCID expect g = false →
        waitSTDIOLoop (fuel + 1) input expect = waitSTDIOLoop fuel rest expect) ∧
    (∀ (fuel : Nat) (input : List Char) (expect : GoVal)
        (fields : List (String × JsonVal)) (rest : List Char) (idv : JsonVal)
        (g : GoVal) (resp : RpcResponse),
        skipWs input ≠ [] →
        parseF (2 * (skipWs input).length + 4) .val (skipWs input) =
          some (.jObj fields, rest) →
        stdioSkipMethod fields = false → lookupField fields "id" = some idv →
        goValOfJson idv = some g → sameRPCID expect g = true →
        unmarshalRpcResponse (.jObj fields) = some resp →
        waitSTDIOLoop (fuel + 1) input expect = .ok resp) ∧
    (∀ (fuel : Nat) (input : List Char) (expect : GoVal),
        skipWs input = [] →
        waitSTDIOLoop (fuel + 1) input expect =
          .error "decode rpc response: eof") ∧
    (∀ n : Int, sameRPCID (.vint n) (.vstr (toString n)) = true) := by
  refine ⟨waitSSELoop_sound, waitSTDIOLoop_sound, ?_, ?_, ?_, ?_, ?_, ?_, ?_, ?_, ?_⟩
  · intro fuel input expect ev rest resp hev hd hdec hid
    exact waitSSE_accept fuel input expect ev rest resp hev hd hdec hid
  · intro fuel input expect ev rest resp hev hd hdec hne hid
    exact waitSSE_skip fuel input expect ev rest resp hev hd hdec hne hid
  · intro fuel input expect h
    exact waitSSE_end fuel input expect h
  · intro fuel input expect fields rest hsw hp hm
    exact waitSTDIO_method_skip fuel input expect fields rest hsw hp hm
  · intro fuel input expect fields rest hsw hp hm hid
    exact waitSTDIO_noid_skip fuel input expect fields rest hsw hp hm hid
  · intro fuel input expect fields rest idv g hsw hp hm hid hg hne hsame
    exact waitSTDIO_nomatch_skip fuel input expect fields rest idv g hsw hp hm hid hg hne hsame
  · intro fuel input expect fields rest idv g resp hsw hp hm hid hg hsame hu
    exact waitSTDIO_accept fuel input expect fields rest idv g resp hsw hp hm hid hg hsame hu
  · intro fuel input expect h
    exact waitSTDIO_eof fuel input expect h
  · exact sameRPCID_int_str

/-- C5 counterexample: both wait loops are offered the same two messages —
first a method-bearing envelope whose id matches the outstanding request,
then a plain result with the same id.  The stdio loop skips the matching
first envelope because of its method field (refuting "accepted if the ids
match"), while the SSE loop accepts that same method-bearing envelope
(refuting "messages bearing a method field are skipped"). -/
theorem method_bearing_match_divergence :
    sameRPCID (.vint 1) (.vint 1) = true ∧
    decodeRpcFromString "\x7b\"jsonrpc\":\"2.0\",\"id\":1,\"method\":\"ping\"\x7d"
      = some ⟨"2.0", .vint 1, none, none⟩ ∧
    waitRPCResponseFromSTDIO
      ("\x7b\"jsonrpc\":\"2.0\",\"id\":1,\"method\":\"ping\"\x7d\n\x7b\"jsonrpc\":\"2.0\",\"id\":1,\"result\":5\x7d\n").data
      (.vint 1) = .ok ⟨"2.0", .vint 1, some (.jNum 5), none⟩ ∧
    waitRPCResponseFromSSE
      ("data: \x7b\"jsonrpc\":\"2.0\",\"id\":1,\"method\":\"ping\"\x7d\n\ndata: \x7b\"jsonrpc\":\"2.0\",\"id\":1,\"result\":5\x7d\n\n").data
      (.vint 1) = .ok ⟨"2.0", .vint 1, none, none⟩ :=
  ⟨by decide, rfl, rfl, rfl⟩

/-- Witness for C5 at concrete streams: an SSE event with a matching id is
accepted, a stdio envelope with a matching id but a method field is
skipped, and a response accepted by the stdio loop has a matching id. -/
theorem waitRPCResponse_spec_witness :
    waitSSELoop 5 ("data: \x7b\"id\":1,\"result\":5\x7d\n\n").data (.vint 1)
      = .ok ⟨"", .vint 1, some (.jNum 5), none⟩ ∧
    waitSTDIOLoop 4 ("\x7b\"id\":2,\"method\":\"ping\"\x7d \x7b\"id\":2,\"result\":7\x7d").data
      (.vint 2) = waitSTDIOLoop 3 (" \x7b\"id\":2,\"result\":7\x7d").data (.vint 2) ∧
    sameRPCID (.vint 1) (.vint 1) = true := by
  refine ⟨?_, ?_, ?_⟩
  · exact waitRPCResponse_spec.2.2.1 4 ("data: \x7b\"id\":1,\"result\":5\x7d\n\n").data
      (.vint 1) ⟨"", "\x7b\"id\":1,\"result\":5\x7d"⟩ []
      ⟨"", .vint 1, some (.jNum 5), none⟩ (by decide) (by decide) rfl (by decide)
  · exact waitRPCResponse_spec.2.2.2.2.2.1 3
      ("\x7b\"id\":2,\"method\":\"ping\"\x7d \x7b\"id\":2,\"result\":7\x7d").data (.vint 2)
      [("id", .jNum 2), ("method", .jStr "ping")] (" \x7b\"id\":2,\"result\":7\x7d").data
      (by decide) rfl (by decide)
  · exact waitRPCResponse_spec.2.1 5 ("\x7b\"id\":1,\"result\":5\x7d\n").data (.vint 1)
      ⟨"", .vint 1, some (.jNum 5), none⟩ (by decide) rfl

/-- C1: the Tool Definition list and the binding table produced by
`RefreshTools` contain no two entries with the same exposed name, and a
constructed name that collides with an already-assigned one receives the
first free numeric suffix `_2`, `_3`, …, probing in increasing order
against the names assigned so far (hence, running inside the sequential
loop, in first-seen order). -/
theorem refreshTools_names_unique (cfg : List Service)
    (client : Service → Except String (List Tool)) :
    ((RefreshTools cfg client).defs.map (·.function.name)).Nodup ∧
    ((RefreshTools cfg client).bindings.map Prod.fst).Nodup ∧
    (∀ bnds base, bindingExists bnds base = false → resolveName bnds base = base) ∧
    (∀ bnds base, bindingExists bnds base = true →
      ∃ i, 2 ≤ i ∧ resolveName bnds base = suffixName base i ∧
        bindingExists bnds (suffixName base i) = false ∧
        ∀ j, 2 ≤ j → j < i → bindingExists bnds (suffixName base j) = true) := by
  obtain ⟨heq, hnd⟩ := refreshFold_inv cfg client (ListEnabledServices cfg) ([], [])
    ⟨rfl, List.nodup_nil⟩
  refine ⟨?_, hnd, fun b n h => (resolveName_charact b n).1 h,
    fun b n h => (resolveName_charact b n).2 h⟩
  show ((List.insertionSort defLE
    ((ListEnabledServices cfg).foldl (refreshStep cfg client) ([], [])).1).map
      (·.function.name)).Nodup
  have hperm := (List.perm_insertionSort defLE
    ((ListEnabledServices cfg).foldl (refreshStep cfg client) ([], [])).1).map
      (fun d : ToolDefinition => d.function.name)
  rw [List.Perm.nodup_iff hperm, heq]
  exact hnd

/-- Witness for C1: duplicate remote tool names receive `_2`, `_3`
suffixes in encounter order, and an unbound name is kept as-is. -/
theorem refreshTools_names_unique_witness :
    ((RefreshTools [wService "a" []]
      (fun _ => .ok [wTool "t", wTool "t", wTool "t"])).bindings.map Prod.fst).Nodup ∧
    (RefreshTools [wService "a" []]
      (fun _ => .ok [wTool "t", wTool "t", wTool "t"])).bindings.map Prod.fst =
      ["a__t", "a__t_2", "a__t_3"] ∧
    resolveName [] "a__t" = "a__t" :=
  ⟨(refreshTools_names_unique [wService "a" []]
      (fun _ => .ok [wTool "t", wTool "t", wTool "t"])).2.1,
   by decide,
   (refreshTools_names_unique [] wClientDown).2.2.1 [] "a__t" (by decide)⟩

/-- C3 (amended): each enabled remote tool of each enabled, reachable
service is exposed; the constructed name is
`sanitize(serviceId) ++ "__" ++ sanitize(toolName)` EXCEPT when the
sanitized service id is empty, in which case it is `sanitize(toolName)`
alone; the exposed name is the constructed name up to collision
suffixing; and the returned Tool Definition list is sorted in ascending
order of exposed name. -/
theorem refreshTools_exposed_names (cfg : List Service)
    (client : Service → Except String (List Tool)) :
    (∀ (service : Service) (tool : Tool),
      (toToolDefinition service tool).1.function.name =
        (if sanitizeName service.id = "" then sanitizeName tool.name
         else sanitizeName service.id ++ "__" ++ sanitizeName tool.name)) ∧
    (∀ (svc : Service) (tools : List Tool) (tool : Tool),
      svc ∈ ListEnabledServices cfg → client svc = .ok tools →
      tool ∈ tools → IsServiceToolEnabled cfg svc.id tool.name = true →
      ∃ name, (name, (toToolDefinition svc tool).2) ∈ (RefreshTools cfg client).bindings ∧
        name ∈ (RefreshTools cfg client).defs.map (·.function.name) ∧
        (name = (toToolDefinition svc tool).1.function.name ∨
         ∃ i, 2 ≤ i ∧
           name = suffixName (toToolDefinition svc tool).1.function.name i)) ∧
    List.Pairwise (fun a b : ToolDefinition => a.function.name ≤ b.function.name)
      (RefreshTools cfg client).defs := by
  refine ⟨fun service tool => rfl, ?_, ?_⟩
  · intro svc tools tool hmem hok htool hen
    obtain ⟨name, hin, hshape⟩ := refresh_adds cfg client (ListEnabledServices cfg)
      ([], []) svc tools tool hmem hok htool hen
    refine ⟨name, hin, ?_, hshape⟩
    obtain ⟨heq, -⟩ := refreshFold_inv cfg client (ListEnabledServices cfg) ([], [])
      ⟨rfl, List.nodup_nil⟩
    have hkey : name ∈
        ((ListEnabledServices cfg).foldl (refreshStep cfg client) ([], [])).2.map Prod.fst :=
      List.mem_map.2 ⟨(name, (toToolDefinition svc tool).2), hin, rfl⟩
    rw [← heq] at hkey
    have hperm := (List.perm_insertionSort defLE
      ((ListEnabledServices cfg).foldl (refreshStep cfg client) ([], [])).1).map
        (fun d : ToolDefinition => d.function.name)
    exact hperm.mem_iff.2 hkey
  · have hsorted := List.sorted_insertionSort defLE
      ((ListEnabledServices cfg).foldl (refreshStep cfg client) ([], [])).1
    refine List.Pairwise.imp ?_ hsorted
    intro a b hab
    exact (goStrLe_iff _ _).1 hab

/-- Counterexample to C3 as stated: a service id consisting only of
underscores sanitizes to the empty string, and the exposed name is then
the sanitized tool name alone, not `sanitize(id) ++ "__" ++
sanitize(tool)`. -/
theorem exposed_name_drops_empty_prefix :
    sanitizeName "_" ++ "__" ++ sanitizeName "query" = "__query" ∧
    (RefreshTools [wService "_" []]
      (fun _ => .ok [wTool "query"])).defs.map (·.function.name) = ["query"] ∧
    "__query" ∉ (RefreshTools [wService "_" []]
      (fun _ => .ok [wTool "query"])).defs.map (·.function.name) :=
  ⟨by decide, by decide, by decide⟩

/-- Witness for C3 on a regular service id. -/
theorem refreshTools_exposed_names_witness :
    (toToolDefinition (wService "a" []) (wTool "q")).1.function.name = "a__q" ∧
    (∃ name,
      (name, ToolBinding.mk "a" "q") ∈
        (RefreshTools [wService "a" []] (fun _ => .ok [wTool "q"])).bindings ∧
      name ∈ (RefreshTools [wService "a" []]
        (fun _ => .ok [wTool "q"])).defs.map (·.function.name) ∧
      (name = (toToolDefinition (wService "a" []) (wTool "q")).1.function.name ∨
       ∃ i, 2 ≤ i ∧ name =
         suffixName (toToolDefinition (wService "a" []) (wTool "q")).1.function.name i)) := by
  constructor
  · rw [(refreshTools_exposed_names [] wClientDown).1 (wService "a" []) (wTool "q")]
    decide
  · exact (refreshTools_exposed_names [wService "a" []] (fun _ => .ok [wTool "q"])).2.1
      (wService "a" []) [wTool "q"] (wTool "q") (by decide) rfl
      (List.mem_singleton.mpr rfl) (by decide)

/-- Witness for C4 at a concrete unknown name on an empty registry. -/
theorem callTool_miss_refreshes_once_witness :
    (CallToolP [] wClientDown wCallDown 30 0 ⟨0, [], []⟩ (wCall "x" "")).refreshCount = 1 ∧
    (CallToolP [] wClientDown wCallDown 30 0 ⟨0, [], []⟩ (wCall "x" "")).result =
      .error (.unknownTool "x") ∧
    (CallToolP [] wClientDown wCallDown 30 0 ⟨0, [], []⟩ (wCall "x" "")).rpcIssued = false := by
  obtain ⟨h1, _, h3⟩ := callTool_miss_refreshes_once [] wClientDown wCallDown 30 0
    ⟨0, [], []⟩ (wCall "x" "") rfl
  obtain ⟨h4, h5⟩ := h3 rfl
  exact ⟨h1, h4, h5⟩

/-- Witness for C7: a cached call inside the TTL window returns the cache
without refreshing, a call after the deadline refreshes. -/
theorem listTools_ttl_cache_witness :
    ListToolsP [] wClientDown 30 0 ⟨10, [wDef], []⟩ =
      (([wDef], none), ⟨10, [wDef], []⟩, false) ∧
    (ListToolsP [] wClientDown 30 20 ⟨10, [wDef], []⟩).2.2 = true := by
  refine ⟨(listTools_ttl_cache [] wClientDown 30 0 ⟨10, [wDef], []⟩).2.1
    ⟨by decide, by decide⟩, ?_⟩
  have h := (listTools_ttl_cache [] wClientDown 30 20 ⟨10, [wDef], []⟩).2.2.1
    (fun hx => absurd hx.1 (by decide))
  rw [h]

/-- Witness for C8 at concrete payloads of every carved-out shape. -/
theorem parseToolArguments_spec_witness :
    parseToolArguments "   " = .ok [] ∧
    parseToolArguments "\x7b\"k\":true\x7d" = .ok [("k", .jBool true)] ∧
    parseToolArguments "null" = .ok [] ∧
    parseToolArguments "[1]" = .error "cannot unmarshal value into map" ∧
    parseToolArguments "notjson" = .error "invalid json" ∧
    (callToolResolved [wService "s" []] wCallDown ⟨0, [], []⟩ 0 ⟨"s", "t"⟩
        (wCall "s__t" "[1]")).result =
      .error (.invalidArgs "s__t" "cannot unmarshal value into map") := by
  refine ⟨(parseToolArguments_spec "   ").1 rfl,
          (parseToolArguments_spec "\x7b\"k\":true\x7d").2.1 _ rfl,
          (parseToolArguments_spec "null").2.2.1 rfl,
          (parseToolArguments_spec "[1]").2.2.2.1 (.jArr [.jNum 1]) (by decide) rfl rfl,
          (parseToolArguments_spec "notjson").2.2.2.2.1 (by decide) rfl,
          (parseToolArguments_spec "[1]").2.2.2.2.2 [wService "s" []] wCallDown
            ⟨0, [], []⟩ 0 ⟨"s", "t"⟩ (wCall "s__t" "[1]") (wService "s" [])
            "cannot unmarshal value into map" rfl rfl (by decide) rfl⟩

/-- Witness for C10: a disabled override hides the tool, a tool with no
record defaults to enabled. -/
theorem isServiceToolEnabled_iff_witness :
    IsServiceToolEnabled [wService "d" [⟨"x", false⟩]] "d" "y" = true ∧
    IsServiceToolEnabled [wService "d" [⟨"x", false⟩]] "d" "x" = false := by
  constructor
  · exact (isServiceToolEnabled_iff [wService "d" [⟨"x", false⟩]] "d" "y"
      (by decide) (by decide)).mpr (by decide)
  · have h := isServiceToolEnabled_iff [wService "d" [⟨"x", false⟩]] "d" "x"
      (by decide) (by decide)
    cases hx : IsServiceToolEnabled [wService "d" [⟨"x", false⟩]] "d" "x" with
    | false => rfl
    | true => exact absurd (h.mp hx) (by decide)

end LB
